import Mathlib

/-!
Verification of the flua-ck serde subsystem (serdebuf.c, serde.c, serde.h):
a shallow embedding of the byte-buffer encoder, the decoder (loadshared and
its helpers) and the custom-type cache (cache_serde), together with theorems
about round-tripping, error handling, buffer growth and type-code arithmetic.

Modelling conventions:
  * Bytes are `Nat` values below 256; multi-byte fields use the little-endian
    layout of the target (x86-64 FreeBSD): sizeof(size_t) = sizeof(void *) =
    sizeof(lua_Integer) = sizeof(lua_Number) = 8, sizeof(unsigned) = 4,
    sizeof(bool) = 1, sizeof(serde_type_code) = 1 (int8_t).
  * lua_Integer, lua_Number and pointer payloads are carried as their 8-byte
    bit patterns (a Nat below 2^64); the encoder memcpys the pattern out and
    the decoder memcpys the same pattern back, so this is exact.
  * Allocation (mallocx/rallocx) is modelled as always succeeding; the ENOMEM
    paths of the buffer are not exercised by the claims about it.
  * The decoder receives only a pointer, so the C code cannot detect a
    truncated buffer: wherever it would read past the end of the modelled
    byte list (or through a NULL serde_cache slot) the model returns the
    distinguished outcome `DecRes.undefined` (undefined behavior in C).
-/

namespace FluaCk

/-- Little-endian bytes of `n`, `w` bytes wide (native x86-64 byte order);
truncates to `n % 2^(8*w)` exactly as a memcpy of a fixed-width field does. -/
def natBytes : Nat → Nat → List Nat
  | 0, _ => []
  | w+1, n => n % 256 :: natBytes w (n / 256)

/-- Value obtained by memcpying a little-endian byte list back into an
unsigned fixed-width field. -/
def leNat : List Nat → Nat
  | [] => 0
  | b :: bs => b + 256 * leNat bs

/-- Overwrite `bs.length` bytes of `l` starting at offset `off`: the
backpatch store through a pointer recomputed from a saved offset. -/
def writeBytes (l : List Nat) (off : Nat) (bs : List Nat) : List Nat :=
  l.take off ++ bs ++ l.drop (off + bs.length)

/-- The `int8_t` value whose object representation is the byte `n % 256`
(two's complement, as on the target). -/
def toInt8 (n : Nat) : Int :=
  if n % 256 < 128 then (n % 256 : Int) else (n % 256 : Int) - 256

/-! Constants from serde.h, ck_md.h and errno.h (FreeBSD amd64). -/

def SERDE_ENV : Nat := 0
def SERDE_NIL : Nat := 1
def SERDE_BOOLEAN : Nat := 2
def SERDE_LIGHTUSERDATA : Nat := 3
def SERDE_INTEGER : Nat := 4
def SERDE_NUMBER : Nat := 5
def SERDE_STRING : Nat := 6
def SERDE_CCLOSURE : Nat := 7
def SERDE_LCLOSURE : Nat := 8
def SERDE_CUSTOM : Nat := 9

def CK_MD_CACHELINE : Nat := 64
def CK_MD_PAGESIZE : Nat := 4096

def EINVAL : Int := 22
def ENOMEM : Int := 12
def EOVERFLOW : Int := 84

def UINT16_MAX : Nat := 65535

/-- Value of `(1 << (sizeof(serde_type_code) * NBBY)) - 1` from serde.c. -/
def SERDE_TYPE_CODE_MAX : Nat := 255

/-- Value `SERDE_TYPE_CODE_MAX + 1`: the dimension of the `serde_cache` array. -/
def SERDE_CACHE_CAPACITY : Nat := SERDE_TYPE_CODE_MAX + 1

/-! Source-side value model.  `SVal` covers the simple (non-container)
serializable Lua values; `SUp` the possible states of one upvalue as the
encoder sees it (`ubad` stands for an upvalue of type function, table, full
userdata or thread, which serdebuf_serialize_upvalues rejects); `SrcVal`
the values serdebuf_serialize can be handed.  A custom value carries the
type code that cache_serde resolved for its (serialize, deserialize) pair
and the byte blob its serialize method writes into the stream. -/

inductive SVal where
  | vnil
  | vbool (b : Bool)
  | vptr (n : Nat)
  | vint (n : Nat)
  | vnum (n : Nat)
  | vstr (s : List Nat)
deriving DecidableEq

inductive SUp where
  | uenv
  | uval (v : SVal)
  | ubad
deriving DecidableEq

inductive SrcVal where
  | prim (v : SVal)
  | cclosure (ups : List SUp) (fp : Nat)
  | lclosure (ups : List SUp) (bytecode : List Nat)
  | custom (tcode : Nat) (blob : List Nat)
deriving DecidableEq

/-- serde_type from serde.h, on the values `SrcVal` models (the INVALID and
ANY sentinels never reach the buffer). -/
def serde_type : SrcVal → Nat
  | .prim .vnil => SERDE_NIL
  | .prim (.vbool _) => SERDE_BOOLEAN
  | .prim (.vptr _) => SERDE_LIGHTUSERDATA
  | .prim (.vint _) => SERDE_INTEGER
  | .prim (.vnum _) => SERDE_NUMBER
  | .prim (.vstr _) => SERDE_STRING
  | .cclosure _ _ => SERDE_CCLOSURE
  | .lclosure _ _ => SERDE_LCLOSURE
  | .custom _ _ => SERDE_CUSTOM

/-- Length reported by luaL_len for the initial sizing of string buffers. -/
def strInitLen : SrcVal → Nat
  | .prim (.vstr s) => s.length
  | _ => 0

/-! The buffer (struct serdebuf).  `data` is the byte content between `buf`
and `cur`; `cap` the allocation size.  serdebuf_size(sb) = cur - buf =
data.length. -/

structure SB where
  data : List Nat
  cap : Nat
deriving DecidableEq

def serdebuf_size (sb : SB) : Nat := sb.data.length

/-- roundup2(x, g) for a power-of-two granule `g`, with the 64-bit wrap of
the C mask arithmetic made explicit. -/
def roundup2 (x g : Nat) : Nat := ((x + g - 1) % 2 ^ 64) / g * g

/-- serdebuf_roundup from serdebuf.c. -/
def serdebuf_roundup (size : Nat) : Nat :=
  if CK_MD_PAGESIZE ≤ size then roundup2 size CK_MD_PAGESIZE
  else roundup2 size CK_MD_CACHELINE

/-- serdebuf_resize: rallocx preserves the contents and cur is recomputed
from the saved offset, so only the capacity changes (allocation success is
assumed, see the file header). -/
def serdebuf_resize (sb : SB) (minimum : Nat) : SB :=
  { data := sb.data, cap := serdebuf_roundup minimum }

/-- serdebuf_append from serdebuf.c; `bs` is the `len` bytes at `p`.
`sb->cap << 1` is 64-bit arithmetic, hence the explicit reduction. -/
def serdebuf_append (sb : SB) (bs : List Nat) : SB :=
  let needed := serdebuf_size sb + bs.length
  if sb.cap < needed then
    let newsize := 2 * sb.cap % 2 ^ 64
    let newsize := if newsize < needed then needed else newsize
    let sb' := serdebuf_resize sb newsize
    { data := sb'.data ++ bs, cap := sb'.cap }
  else
    { data := sb.data ++ bs, cap := sb.cap }

/-- serde_type_size from serdebuf.c, indexed by the wire tag. -/
def serde_type_size (t : Nat) : Nat :=
  if t = SERDE_BOOLEAN then 1
  else if t = SERDE_LIGHTUSERDATA then 8
  else if t = SERDE_INTEGER then 8
  else if t = SERDE_NUMBER then 8
  else if t = SERDE_STRING then 8
  else if t = SERDE_CCLOSURE then CK_MD_CACHELINE
  else if t = SERDE_LCLOSURE then CK_MD_PAGESIZE
  else if t = SERDE_CUSTOM then CK_MD_CACHELINE
  else 0

/-- serdebuf_init: an empty buffer whose capacity is the exact initial
estimate (1 byte of type code, the type's payload size, plus the string
length for strings). -/
def serdebuf_init (v : SrcVal) : SB :=
  let t := serde_type v
  { data := [],
    cap := 1 + serde_type_size t + (if t = SERDE_STRING then strInitLen v else 0) }

/-- The tag byte plus fixed payload of one simple value, exactly as the
corresponding cases of serdebuf_serialize append them. -/
def putPrim (sb : SB) (v : SVal) : SB :=
  match v with
  | .vnil => serdebuf_append sb [SERDE_NIL]
  | .vbool b => serdebuf_append (serdebuf_append sb [SERDE_BOOLEAN]) [if b then 1 else 0]
  | .vptr n => serdebuf_append (serdebuf_append sb [SERDE_LIGHTUSERDATA]) (natBytes 8 n)
  | .vint n => serdebuf_append (serdebuf_append sb [SERDE_INTEGER]) (natBytes 8 n)
  | .vnum n => serdebuf_append (serdebuf_append sb [SERDE_NUMBER]) (natBytes 8 n)
  | .vstr s =>
      serdebuf_append
        (serdebuf_append (serdebuf_append sb [SERDE_STRING]) (natBytes 8 s.length)) s

/-- One iteration of the serdebuf_serialize_upvalues loop: the _ENV upvalue
serializes as the bare SERDE_ENV tag; an upvalue of type function, table,
userdata or thread makes the whole serialization return EINVAL; any other
upvalue is serialized recursively (through serdebuf_serialize with
SERDE_ANY, which reduces to the simple-value cases). -/
def putUp (sb : SB) (u : SUp) : Except Int SB :=
  match u with
  | .uenv => .ok (serdebuf_append sb [SERDE_ENV])
  | .uval v => .ok (putPrim sb v)
  | .ubad => .error EINVAL

def putUpList : SB → List SUp → Except Int SB
  | sb, [] => .ok sb
  | sb, u :: us =>
    match putUp sb u with
    | .error e => .error e
    | .ok sb' => putUpList sb' us

/-- serdebuf_serialize_upvalues: reserve 4 bytes for the count (the C code
appends an indeterminate `unsigned`, fully overwritten below), serialize
each upvalue, then backpatch the count through a pointer recomputed from
the saved offset. -/
def serdebuf_serialize_upvalues (sb : SB) (ups : List SUp) : Except Int SB :=
  let count_offset := serdebuf_size sb
  let sb := serdebuf_append sb (natBytes 4 0)
  match putUpList sb ups with
  | .error e => .error e
  | .ok sb =>
    .ok { data := writeBytes sb.data count_offset (natBytes 4 ups.length), cap := sb.cap }

/-- serdebuf_dump: reserve 8 bytes for the size, let lua_dump append the
bytecode through serdebuf_writer, then backpatch `current size - start`
at `start - sizeof(size_t)` (address recomputed from the offset). -/
def serdebuf_dump (sb : SB) (bytecode : List Nat) : SB :=
  let sb := serdebuf_append sb (natBytes 8 0)
  let start := serdebuf_size sb
  let sb := serdebuf_append sb bytecode
  { data := writeBytes sb.data (start - 8) (natBytes 8 (serdebuf_size sb - start)),
    cap := sb.cap }

/-- serdebuf_serialize_custom: reserve 8 bytes for the size, let the value's
serialize method write `blob` through the write-only stream (assumed to
succeed; a pcall error would abort the encode), then backpatch the size. -/
def serdebuf_serialize_custom (sb : SB) (blob : List Nat) : SB :=
  let sb := serdebuf_append sb (natBytes 8 0)
  let start := serdebuf_size sb
  let sb := serdebuf_append sb blob
  { data := writeBytes sb.data (start - 8) (natBytes 8 (serdebuf_size sb - start)),
    cap := sb.cap }

/-- serdebuf_serialize from serdebuf.c.  For a custom value the tag byte
SERDE_CUSTOM is appended first; cache_serde then resolves the concrete
type code (modelled separately as `cache_serde` below; here the value
carries the resolved code) and the code is memcpyed over the tag byte at
the saved type_offset. -/
def serdebuf_serialize (sb : SB) (v : SrcVal) : Except Int SB :=
  match v with
  | .prim p => .ok (putPrim sb p)
  | .cclosure ups fp =>
    let sb := serdebuf_append sb [SERDE_CCLOSURE]
    match serdebuf_serialize_upvalues sb ups with
    | .error e => .error e
    | .ok sb => .ok (serdebuf_append sb (natBytes 8 fp))
  | .lclosure ups bc =>
    let sb := serdebuf_append sb [SERDE_LCLOSURE]
    match serdebuf_serialize_upvalues sb ups with
    | .error e => .error e
    | .ok sb => .ok (serdebuf_dump sb bc)
  | .custom tcode blob =>
    let type_offset := serdebuf_size sb
    let sb := serdebuf_append sb [SERDE_CUSTOM]
    let sb : SB := { data := writeBytes sb.data type_offset [tcode % 256], cap := sb.cap }
    .ok (serdebuf_serialize_custom sb blob)

/-- The full encode pipeline as the callers (serialize() in shared.c, the
fifo/ring enqueue paths) run it: serdebuf_init, serdebuf_serialize,
serdebuf_finalize.  On error the callers serdebuf_destroy the buffer and
hand out nothing, which the `.error` result models; on success finalize
shrinks the allocation to the used length and returns the bytes. -/
def encodeValue (v : SrcVal) : Except Int (List Nat) :=
  match serdebuf_serialize (serdebuf_init v) v with
  | .ok sb => .ok sb.data
  | .error e => .error e

/-! Closed forms of the encodings, proved below to agree with the stateful
encoder; the decoder theorems are stated against these. -/

def encPrim : SVal → List Nat
  | .vnil => [SERDE_NIL]
  | .vbool b => [SERDE_BOOLEAN, if b then 1 else 0]
  | .vptr n => SERDE_LIGHTUSERDATA :: natBytes 8 n
  | .vint n => SERDE_INTEGER :: natBytes 8 n
  | .vnum n => SERDE_NUMBER :: natBytes 8 n
  | .vstr s => SERDE_STRING :: (natBytes 8 s.length ++ s)

def encUp : SUp → List Nat
  | .uenv => [SERDE_ENV]
  | .uval v => encPrim v
  | .ubad => []

def encUps : List SUp → List Nat
  | [] => []
  | u :: us => encUp u ++ encUps us

def encValue : SrcVal → List Nat
  | .prim p => encPrim p
  | .cclosure ups fp =>
    SERDE_CCLOSURE :: (natBytes 4 ups.length ++ encUps ups ++ natBytes 8 fp)
  | .lclosure ups bc =>
    SERDE_LCLOSURE :: (natBytes 4 ups.length ++ encUps ups ++ natBytes 8 bc.length ++ bc)
  | .custom tcode blob =>
    tcode % 256 :: (natBytes 8 blob.length ++ blob)

/-! Decoder model (loadsharedimpl, loadupvalues, loadclosure, setupvalues,
loadshared from serde.c). -/

/-- A decoded value as observed in the consuming interpreter.  A decoded
closure records the decoded upvalue list and whether an environment marker
was seen (setupvalues then binds the values in order, skipping upvalue
slot 1 when the marker was seen); a decoded custom value is determined by
its type code and the blob span handed to the cached deserialize function. -/
inductive DVal where
  | dnil
  | dbool (b : Bool)
  | dptr (n : Nat)
  | dint (n : Nat)
  | dnum (n : Nat)
  | dstr (s : List Nat)
  | dcclosure (ups : List DVal) (env : Bool) (fp : Nat)
  | dlclosure (ups : List DVal) (env : Bool) (bytecode : List Nat)
  | dcustom (tcode : Nat) (blob : List Nat)

/-- What one loadsharedimpl call leaves behind: a pushed value, or the
environment marker reported through *envp with nothing pushed. -/
inductive Loaded where
  | val (v : DVal)
  | envmark

/-- Outcome of a decode step.  `fail` is the C function returning NULL with
an error on the stack; `undefined` marks the places where the C code reads past
the supplied bytes or through a NULL serde_cache slot (undefined behavior);
`oof` is exhaustion of the model's recursion fuel (never reached with
enough fuel). -/
inductive DecRes where
  | ok (r : Loaded) (rest : List Nat)
  | fail
  | undefined
  | oof

inductive UpsRes where
  | ok (vals : List DVal) (env : Bool) (rest : List Nat)
  | fail
  | undefined
  | oof

/-- The decode-side environment: `cached t` is whether the per-interpreter
registry cache table already maps type code `t` (cache[type] in the C);
`slots` the published prefix of the global serde_cache array (length
serde_cache_len); `deOk t blob` whether the pcall of the user deserialize
function for code `t` on span `blob` succeeds; `bcOk bc` whether
luaL_loadbufferx accepts the bytecode `bc`.  `envG` is the indeterminate
value held by the uninitialized `bool env` of the nested loadshared calls
that the custom branch performs when filling the cache from a global slot:
loadshared declares `bool env;` with no initializer and loadsharedimpl
writes it only in the SERDE_ENV case, so on every other successful decode
the `\x7c\x7c env` test reads an indeterminate value; the model exposes that
value as this explicit unknown (uniformly for the nested calls). -/
structure DecCtx where
  cached : Nat → Bool
  slots : List (List Nat)
  deOk : Nat → List Nat → Bool
  bcOk : List Nat → Bool
  envG : Bool

/-- consume from serde.c: memcpy `n` bytes out and advance the pointer.
`none` is the case where fewer than `n` bytes remain, i.e. the C memcpy
reads out of bounds. -/
def consume (n : Nat) (l : List Nat) : Option (List Nat × List Nat) :=
  if n ≤ l.length then some (l.take n, l.drop n) else none

mutual

/-- loadsharedimpl from serde.c, byte for byte.  The first argument is
recursion fuel (see `DecRes.oof`).  The tag byte is read as an int8_t:
a byte ≥ 128 is a negative type and is rejected.  In the custom (default)
branch the blob span of `size` bytes is delimited by fmemopen — which
fails with EINVAL when `size` is zero (POSIX and the FreeBSD libc reject a
zero-length buffer; its allocation is otherwise assumed to succeed) — and
handed to the deserialize function (modelled as reading its whole span);
note that the branch returns the pointer `p` advanced past the size field
only, not past the blob, exactly as the C code does.  When the type code
is not in the per-interpreter cache table, the pair is reloaded from the
global serde_cache slot via two loadshared calls; each of those calls
reads its own uninitialized `bool env` on success (see `DecCtx.envG`), and
an unpublished slot is a NULL pointer there. -/
def loadsharedimpl : Nat → DecCtx → List Nat → DecRes
  | 0, _, _ => .oof
  | _+1, _, [] => .undefined
  | fuel+1, ctx, b :: p =>
    let t := b % 256
    if 128 ≤ t then .fail
    else if t = SERDE_ENV then .ok .envmark p
    else if t = SERDE_NIL then .ok (.val .dnil) p
    else if t = SERDE_BOOLEAN then
      match consume 1 p with
      | none => .undefined
      | some (v, p) => .ok (.val (.dbool (leNat v != 0))) p
    else if t = SERDE_LIGHTUSERDATA then
      match consume 8 p with
      | none => .undefined
      | some (v, p) => .ok (.val (.dptr (leNat v))) p
    else if t = SERDE_NUMBER then
      match consume 8 p with
      | none => .undefined
      | some (v, p) => .ok (.val (.dnum (leNat v))) p
    else if t = SERDE_INTEGER then
      match consume 8 p with
      | none => .undefined
      | some (v, p) => .ok (.val (.dint (leNat v))) p
    else if t = SERDE_STRING then
      match consume 8 p with
      | none => .undefined
      | some (lenb, p) =>
        match consume (leNat lenb) p with
        | none => .undefined
        | some (s, p) => .ok (.val (.dstr s)) p
    else if t = SERDE_LCLOSURE then
      match consume 4 p with
      | none => .undefined
      | some (cb, p) =>
        match loadupvalues fuel ctx (leNat cb) false p with
        | .fail => .fail
        | .undefined => .undefined
        | .oof => .oof
        | .ok vals env p =>
          match consume 8 p with
          | none => .undefined
          | some (szb, p) =>
            match consume (leNat szb) p with
            | none => .undefined
            | some (bc, p) =>
              if ctx.bcOk bc then .ok (.val (.dlclosure vals env bc)) p else .fail
    else if t = SERDE_CCLOSURE then
      match consume 4 p with
      | none => .undefined
      | some (cb, p) =>
        match loadupvalues fuel ctx (leNat cb) false p with
        | .fail => .fail
        | .undefined => .undefined
        | .oof => .oof
        | .ok vals env p =>
          match consume 8 p with
          | none => .undefined
          | some (fpb, p) => .ok (.val (.dcclosure vals env (leNat fpb))) p
    else
      match consume 8 p with
      | none => .undefined
      | some (szb, p) =>
        let size := leNat szb
        if size = 0 then .fail
        else if size ≤ p.length then
          let blob := p.take size
          if ctx.cached t then
            if ctx.deOk t blob then .ok (.val (.dcustom t blob)) p else .fail
          else if t - SERDE_CUSTOM < ctx.slots.length then
            match loadsharedimpl fuel ctx (ctx.slots.getD (t - SERDE_CUSTOM) []) with
            | .fail => .fail
            | .undefined => .undefined
            | .oof => .oof
            | .ok .envmark _ => .fail
            | .ok (.val _) p1 =>
              if ctx.envG then .fail
              else
                match loadsharedimpl fuel ctx p1 with
                | .fail => .fail
                | .undefined => .undefined
                | .oof => .oof
                | .ok .envmark _ => .fail
                | .ok (.val _) _ =>
                  if ctx.envG then .fail
                  else if ctx.deOk t blob then .ok (.val (.dcustom t blob)) p
                  else .fail
          else .undefined
        else .undefined

/-- The loop of loadupvalues from serde.c (the enclosing closure branch has
already consumed the 4-byte count, passed here as `count`; `env` is the
accumulator behind the envp out-parameter). -/
def loadupvalues : Nat → DecCtx → Nat → Bool → List Nat → UpsRes
  | 0, _, _, _, _ => .oof
  | _+1, _, 0, env, l => .ok [] env l
  | fuel+1, ctx, count+1, env, l =>
    match loadsharedimpl fuel ctx l with
    | .fail => .fail
    | .undefined => .undefined
    | .oof => .oof
    | .ok .envmark rest => loadupvalues fuel ctx count true rest
    | .ok (.val v) rest =>
      match loadupvalues fuel ctx count env rest with
      | .fail => .fail
      | .undefined => .undefined
      | .oof => .oof
      | .ok vals env' rest' => .ok (v :: vals) env' rest'

end

/-- loadshared from serde.c: NULL when the implementation failed or when
`env` is set.  The C declares `bool env;` WITHOUT an initializer and
loadsharedimpl stores to it only in the SERDE_ENV case, so whenever the
implementation succeeds with a pushed value the `\x7c\x7c env` test reads an
indeterminate value: `env0` is that unknown, an explicit model of the
uninitialized read (an environment marker always sets env to true; a NULL
from the implementation short-circuits the test, so env is not read). -/
def loadshared (env0 : Bool) (fuel : Nat) (ctx : DecCtx) (l : List Nat) : DecRes :=
  match loadsharedimpl fuel ctx l with
  | .ok .envmark _ => .fail
  | .ok (.val v) rest => if env0 then .fail else .ok (.val v) rest
  | r => r

/-! Observation map: what the decoder reconstructs from an encoded source
value (for the round-trip theorem). -/

def obsPrim : SVal → DVal
  | .vnil => .dnil
  | .vbool b => .dbool b
  | .vptr n => .dptr n
  | .vint n => .dint n
  | .vnum n => .dnum n
  | .vstr s => .dstr s

def obsUps : List SUp → List DVal
  | [] => []
  | .uval v :: us => obsPrim v :: obsUps us
  | _ :: us => obsUps us

def obsVal : SrcVal → DVal
  | .prim p => obsPrim p
  | .cclosure ups fp => .dcclosure (obsUps ups) false fp
  | .lclosure ups bc => .dlclosure (obsUps ups) false bc
  | .custom tcode blob => .dcustom tcode blob

/-! Well-formedness predicates delimiting the claims' domains. -/

/-- The 8-byte payloads and the string length must fit their fields for the
bit pattern to survive the memcpy round trip (always true of real machine
words). -/
def primWf : SVal → Bool
  | .vnil => true
  | .vbool _ => true
  | .vptr n => decide (n < 2 ^ 64)
  | .vint n => decide (n < 2 ^ 64)
  | .vnum n => decide (n < 2 ^ 64)
  | .vstr s => decide (s.length < 2 ^ 64)

/-- An upvalue of one of the simple types (the domain of the round-trip
claim: no environment marker, no rejected kinds). -/
def upSimple : SUp → Bool
  | .uval v => primWf v
  | _ => false

/-- Not an upvalue the encoder rejects. -/
def upNotBad : SUp → Bool
  | .ubad => false
  | _ => true

/-! Custom-type cache model (cache_serde and the globals of serde.c).
A (serialize, deserialize) pair is identified in the per-interpreter
registry cache by raw equality of the two function objects (`sid`/`did`
stand for those identities) and process-wide by the byte key obtained by
serializing both closures into one buffer. -/

structure SerdePair where
  sid : Nat
  did : Nat
  sv : SrcVal
  dv : SrcVal
deriving DecidableEq

/-- The canonical byte key of a pair: serdebuf_init on the deserialize
closure (stack index -2), then serdebuf_serialize of the serialize closure
and of the deserialize closure into the same buffer, finalized. -/
def pairKey (p : SerdePair) : Except Int (List Nat) :=
  match serdebuf_serialize (serdebuf_init p.dv) p.sv with
  | .error e => .error e
  | .ok sb =>
    match serdebuf_serialize sb p.dv with
    | .error e => .error e
    | .ok sb => .ok sb.data

/-- The registry cache table of one interpreter: entries
type => \x7bserialize=fn, deserialize=fn\x7d, scanned by lua_next and
matched by lua_rawequal on both functions. -/
def regFind (reg : List (Int × Nat × Nat)) (sid did : Nat) : Option Int :=
  match reg.find? (fun e => e.2.1 == sid && e.2.2 == did) with
  | some e => some e.1
  | none => none

/-- The assignment `type = i + SERDE_CUSTOM` at type serde_type_code (int8_t). -/
def typeCodeOfSlot (i : Nat) : Int := toInt8 (i + SERDE_CUSTOM)

/-- The published global cache: serde_cache[0 .. serde_cache_len) together
with the hash table serde_cache_types, whose contents are exactly
key serde_cache[i] => i for the published slots. -/
structure CacheState where
  slots : List (List Nat)
deriving DecidableEq

/-- Index of the first slot holding `key`, if any. -/
def slotIdx : List (List Nat) → List Nat → Option Nat
  | [], _ => none
  | k :: ks, key => if k = key then some 0 else (slotIdx ks key).map (· + 1)

/-- ck_ht_get_spmc on the types table: the index of the slot holding `key`
(the table maps each published slot's key to its index). -/
def ht_get (st : CacheState) (key : List Nat) : Option Nat :=
  slotIdx st.slots key

/-- Result of one spinlock-protected critical section of cache_serde:
`i = serde_cache_len; serde_cache[i] = serialized;` is performed
unconditionally (`wrote` records that store's index, with no bounds check
against SERDE_CACHE_CAPACITY), then ck_ht_put_spmc publishes the slot by
incrementing serde_cache_len only when it succeeds.  The put fails when the
key is already present (a racing thread won) or when the table's allocator
fails (`allocOk = false`). -/
structure LockedOut where
  st : CacheState
  putOk : Bool
  wrote : Nat
deriving DecidableEq

def lockedInsert (st : CacheState) (key : List Nat) (allocOk : Bool) : LockedOut :=
  let i := st.slots.length
  if (ht_get st key).isSome || !allocOk then ⟨st, false, i⟩
  else ⟨⟨st.slots ++ [key]⟩, true, i⟩

inductive CacheRes where
  | ok (code : Int)
  | err (e : Int)
deriving DecidableEq

structure CacheSerdeOut where
  reg : List (Int × Nat × Nat)
  st : CacheState
  res : CacheRes
  wrote : Option Nat
deriving DecidableEq

/-- cache_serde from serde.c.  Fast path: scan the per-interpreter registry
cache table for the pair by function identity.  Slow path: encode the pair
into a byte key, reject keys longer than the table's 16-bit key-length
limit, look the key up in the shared hash table, and on a miss run the
locked insert; if the put failed, retry the lookup once and return ENOMEM
when it still misses.  Every success appends the resolved
(type, serialize, deserialize) record to the registry cache. -/
def cache_serde (reg : List (Int × Nat × Nat)) (st : CacheState) (p : SerdePair)
    (allocOk : Bool) : CacheSerdeOut :=
  match regFind reg p.sid p.did with
  | some c => ⟨reg, st, .ok c, none⟩
  | none =>
    match pairKey p with
    | .error e => ⟨reg, st, .err e, none⟩
    | .ok key =>
      if UINT16_MAX < key.length then ⟨reg, st, .err EOVERFLOW, none⟩
      else
        match ht_get st key with
        | some i => ⟨reg ++ [(typeCodeOfSlot i, p.sid, p.did)], st, .ok (typeCodeOfSlot i), none⟩
        | none =>
          let out := lockedInsert st key allocOk
          if out.putOk then
            ⟨reg ++ [(typeCodeOfSlot out.wrote, p.sid, p.did)], out.st,
              .ok (typeCodeOfSlot out.wrote), some out.wrote⟩
          else
            match ht_get out.st key with
            | some i =>
              ⟨reg ++ [(typeCodeOfSlot i, p.sid, p.did)], out.st,
                .ok (typeCodeOfSlot i), some out.wrote⟩
            | none => ⟨reg, out.st, .err ENOMEM, some out.wrote⟩

/-- A sequence of locked critical sections (by any interleaving of threads;
the spinlock serializes them) applied to the shared cache state. -/
def applyOps (st : CacheState) (ops : List (List Nat × Bool)) : CacheState :=
  ops.foldl (fun s kv => (lockedInsert s kv.1 kv.2).st) st

/-- Serializability of a value as far as upvalues are concerned: no upvalue
of a kind the encoder rejects. -/
def valOk : SrcVal → Bool
  | .prim _ => true
  | .cclosure ups _ => ups.all upNotBad
  | .lclosure ups _ => ups.all upNotBad
  | .custom _ _ => true

/-- The closure part of the round-trip claim's domain: all upvalues of
simple types, and the machine-width side conditions. -/
def closWf (ctx : DecCtx) : SrcVal → Prop
  | .cclosure ups fp =>
      ups.all upSimple = true ∧ ups.length < 2 ^ 32 ∧ fp < 2 ^ 64
  | .lclosure ups bc =>
      ups.all upSimple = true ∧ ups.length < 2 ^ 32 ∧ bc.length < 2 ^ 64 ∧
      ctx.bcOk bc = true
  | _ => False

/-- The round-trip claim's domain of supported values: simple values,
closures whose upvalues are simple-typed, and custom values carrying a
valid resolved type code, a nonempty serialized blob (fmemopen rejects a
zero-length span with EINVAL, so a custom value whose serialize writes
zero bytes never decodes) and a succeeding deserialize function, where the
decoding interpreter either already caches that code or can load the
(serialize, deserialize) pair from the published global slot. -/
def C1Dom (ctx : DecCtx) : SrcVal → Prop
  | .prim p => primWf p = true
  | .cclosure ups fp => closWf ctx (.cclosure ups fp)
  | .lclosure ups bc => closWf ctx (.lclosure ups bc)
  | .custom t blob =>
      SERDE_CUSTOM ≤ t ∧ t ≤ 127 ∧ 0 < blob.length ∧ blob.length < 2 ^ 64 ∧
      ctx.deOk t blob = true ∧
      (ctx.cached t = true ∨
        (ctx.cached t = false ∧ t - SERDE_CUSTOM < ctx.slots.length ∧
          ∃ c1 c2 : SrcVal,
            ctx.slots.getD (t - SERDE_CUSTOM) [] = encValue c1 ++ encValue c2 ∧
            closWf ctx c1 ∧ closWf ctx c2))

/-- Fuel needed by the closure cases of the decoder. -/
def fuelClos : SrcVal → Nat
  | .cclosure ups _ => ups.length + 3
  | .lclosure ups _ => ups.length + 3
  | _ => 0

/-- Sufficient decode fuel for a value in the round-trip domain. -/
def c1fuel (ctx : DecCtx) : SrcVal → Nat
  | .prim _ => 1
  | .cclosure ups _ => ups.length + 3
  | .lclosure ups _ => ups.length + 3
  | .custom t _ =>
      if ctx.cached t then 1 else (ctx.slots.getD (t - SERDE_CUSTOM) []).length + 2

/-- A decode context for concrete witnesses: everything cached, every user
function succeeds, and the nested uninitialized-env reads happen to be
false. -/
def ctxAll : DecCtx := ⟨fun _ => true, [], fun _ _ => true, fun _ => true, false⟩

/-- A decode context whose user deserialize functions always raise. -/
def ctxDeFail : DecCtx := ⟨fun _ => true, [], fun _ _ => false, fun _ => true, false⟩

/-- A decode context with nothing cached and no published global slots. -/
def ctxEmpty : DecCtx := ⟨fun _ => false, [], fun _ _ => true, fun _ => true, false⟩

/-- The pointer loadshared returns after decoding the encoding of `v`
followed by `rest`: for custom values the C code leaves the pointer at the
start of the blob instead of past it. -/
def decodeLeft (v : SrcVal) (rest : List Nat) : List Nat :=
  match v with
  | .custom _ blob => blob ++ rest
  | _ => rest

/-- A full global cache: 256 distinct published keys, one per slot of the
fixed-capacity serde_cache array. -/
def fullState : CacheState := ⟨(List.range 256).map (fun n => [n])⟩

/-- A fresh (serialize, deserialize) pair of two distinct C closures. -/
def c3pair : SerdePair := ⟨0, 1, .cclosure [] 0, .cclosure [] 1⟩

/-! ### Byte-level lemmas -/

theorem natBytes_length (w n : Nat) : (natBytes w n).length = w := by
  induction w generalizing n with
  | zero => rfl
  | succ w ih => simp [natBytes, ih]

theorem leNat_natBytes (w n : Nat) : leNat (natBytes w n) = n % 256 ^ w := by
  induction w generalizing n with
  | zero => simp [natBytes, leNat, Nat.mod_one]
  | succ w ih =>
    calc leNat (natBytes (w + 1) n) = n % 256 + 256 * (n / 256 % 256 ^ w) := by
          simp [natBytes, leNat, ih]
    _ = n % (256 * 256 ^ w) := (Nat.mod_mul).symm
    _ = n % 256 ^ (w + 1) := by rw [Nat.pow_succ, Nat.mul_comm 256 (256 ^ w)]

theorem leNat_natBytes_small (w n : Nat) (h : n < 256 ^ w) :
    leNat (natBytes w n) = n := by
  rw [leNat_natBytes, Nat.mod_eq_of_lt h]

theorem consume_exact (a r : List Nat) : consume a.length (a ++ r) = some (a, r) := by
  simp [consume, List.take_left, List.drop_left]

theorem consume_of_len (n : Nat) (a r : List Nat) (h : a.length = n) :
    consume n (a ++ r) = some (a, r) := by
  subst h; exact consume_exact a r

theorem consume_some (n : Nat) (l a r : List Nat) (h : consume n l = some (a, r)) :
    l = a ++ r ∧ a.length = n := by
  unfold consume at h
  split at h
  · next hle =>
    obtain ⟨rfl, rfl⟩ : l.take n = a ∧ l.drop n = r := by
      constructor <;> { injection h with h2; cases h2; rfl }
    exact ⟨(List.take_append_drop n l).symm, List.length_take_of_le hle⟩
  · exact absurd h (by simp)

theorem writeBytes_shape (a b c b2 : List Nat) (h : b.length = b2.length) :
    writeBytes (a ++ (b ++ c)) a.length b2 = a ++ (b2 ++ c) := by
  have h1 : (a ++ (b ++ c)).take a.length = a := List.take_left a (b ++ c)
  have h2 : (a ++ (b ++ c)).drop (a.length + b2.length) = c := by
    rw [← h, ← List.length_append a b, ← List.append_assoc]
    exact List.drop_left (a ++ b) c
  rw [writeBytes, h1, h2, List.append_assoc]

/-! ### Encoder bridge: the stateful serializer produces the closed-form
encodings, independently of the growth steps taken along the way. -/

theorem ok_eq_of_data {x : SB} {d : List Nat} (h : x.data = d) :
    (Except.ok x : Except Int SB) = .ok ⟨d, x.cap⟩ := by
  cases x
  cases h
  rfl

theorem serdebuf_append_data (sb : SB) (bs : List Nat) :
    (serdebuf_append sb bs).data = sb.data ++ bs := by
  unfold serdebuf_append serdebuf_resize
  dsimp only
  split <;> rfl

theorem putPrim_data (sb : SB) (v : SVal) :
    (putPrim sb v).data = sb.data ++ encPrim v := by
  cases v <;> simp [putPrim, encPrim, serdebuf_append_data]

theorem putUpList_ok (ups : List SUp) (sb : SB) (h : ups.all upNotBad = true) :
    ∃ sb2, putUpList sb ups = .ok sb2 ∧ sb2.data = sb.data ++ encUps ups := by
  induction ups generalizing sb with
  | nil => exact ⟨sb, rfl, by simp [encUps]⟩
  | cons u us ih =>
    simp only [List.all_cons, Bool.and_eq_true] at h
    obtain ⟨hu, hus⟩ := h
    cases u with
    | uenv =>
      obtain ⟨sb2, h1, h2⟩ := ih (serdebuf_append sb [SERDE_ENV]) hus
      refine ⟨sb2, ?_, ?_⟩
      · simpa [putUpList, putUp] using h1
      · rw [h2, serdebuf_append_data]; simp [encUps, encUp]
    | uval v =>
      obtain ⟨sb2, h1, h2⟩ := ih (putPrim sb v) hus
      refine ⟨sb2, ?_, ?_⟩
      · simpa [putUpList, putUp] using h1
      · rw [h2, putPrim_data]; simp [encUps, encUp]
    | ubad => simp [upNotBad] at hu

theorem putUpList_bad (ups : List SUp) (sb : SB) (h : SUp.ubad ∈ ups) :
    putUpList sb ups = .error EINVAL := by
  induction ups generalizing sb with
  | nil => cases h
  | cons u us ih =>
    simp only [List.mem_cons] at h
    cases u with
    | uenv =>
      have h2 : SUp.ubad ∈ us := by
        rcases h with h | h
        · exact absurd h (by simp)
        · exact h
      show putUpList (serdebuf_append sb [SERDE_ENV]) us = _
      exact ih _ h2
    | uval v =>
      have h2 : SUp.ubad ∈ us := by
        rcases h with h | h
        · exact absurd h (by simp)
        · exact h
      show putUpList (putPrim sb v) us = _
      exact ih _ h2
    | ubad => rfl

theorem serialize_upvalues_ok (sb : SB) (ups : List SUp) (h : ups.all upNotBad = true) :
    ∃ cap, serdebuf_serialize_upvalues sb ups =
      .ok ⟨sb.data ++ (natBytes 4 ups.length ++ encUps ups), cap⟩ := by
  obtain ⟨sb2, h1, h2⟩ := putUpList_ok ups (serdebuf_append sb (natBytes 4 0)) h
  refine ⟨sb2.cap, ?_⟩
  unfold serdebuf_serialize_upvalues
  simp only [h1]
  have hw : writeBytes sb2.data (serdebuf_size sb) (natBytes 4 ups.length) =
      sb.data ++ (natBytes 4 ups.length ++ encUps ups) := by
    rw [h2, serdebuf_append_data, List.append_assoc, serdebuf_size]
    exact writeBytes_shape _ _ _ _ (by rw [natBytes_length, natBytes_length])
  rw [hw]

theorem serialize_upvalues_bad (sb : SB) (ups : List SUp) (h : SUp.ubad ∈ ups) :
    serdebuf_serialize_upvalues sb ups = .error EINVAL := by
  unfold serdebuf_serialize_upvalues
  simp only [putUpList_bad _ _ h]

theorem reserve_patch (d pad bs payload : List Nat) (h : pad.length = bs.length) :
    writeBytes ((d ++ pad) ++ payload) ((d ++ pad).length - pad.length) bs =
      d ++ (bs ++ payload) := by
  have hlen : (d ++ pad).length - pad.length = d.length := by
    simp [List.length_append]
  rw [hlen, List.append_assoc]
  exact writeBytes_shape d pad payload bs h

theorem serdebuf_dump_data (sb : SB) (bc : List Nat) :
    (serdebuf_dump sb bc).data = sb.data ++ (natBytes 8 bc.length ++ bc) := by
  show writeBytes (serdebuf_append (serdebuf_append sb (natBytes 8 0)) bc).data
      (serdebuf_size (serdebuf_append sb (natBytes 8 0)) - 8)
      (natBytes 8 (serdebuf_size (serdebuf_append (serdebuf_append sb (natBytes 8 0)) bc) -
        serdebuf_size (serdebuf_append sb (natBytes 8 0)))) =
      sb.data ++ (natBytes 8 bc.length ++ bc)
  simp only [serdebuf_size, serdebuf_append_data, List.length_append, natBytes_length]
  have h1 : sb.data.length + 8 - 8 =
      (sb.data ++ natBytes 8 0).length - (natBytes 8 0).length := by
    simp [natBytes_length]
  have h2 : sb.data.length + 8 + bc.length - (sb.data.length + 8) = bc.length := by omega
  rw [h2, h1, natBytes_length]
  exact reserve_patch sb.data (natBytes 8 0) (natBytes 8 bc.length) bc
    (by rw [natBytes_length, natBytes_length])

theorem serialize_custom_data (sb : SB) (blob : List Nat) :
    (serdebuf_serialize_custom sb blob).data =
      sb.data ++ (natBytes 8 blob.length ++ blob) := by
  show writeBytes (serdebuf_append (serdebuf_append sb (natBytes 8 0)) blob).data
      (serdebuf_size (serdebuf_append sb (natBytes 8 0)) - 8)
      (natBytes 8 (serdebuf_size (serdebuf_append (serdebuf_append sb (natBytes 8 0)) blob) -
        serdebuf_size (serdebuf_append sb (natBytes 8 0)))) =
      sb.data ++ (natBytes 8 blob.length ++ blob)
  simp only [serdebuf_size, serdebuf_append_data, List.length_append, natBytes_length]
  have h1 : sb.data.length + 8 - 8 =
      (sb.data ++ natBytes 8 0).length - (natBytes 8 0).length := by
    simp [natBytes_length]
  have h2 : sb.data.length + 8 + blob.length - (sb.data.length + 8) = blob.length := by omega
  rw [h2, h1, natBytes_length]
  exact reserve_patch sb.data (natBytes 8 0) (natBytes 8 blob.length) blob
    (by rw [natBytes_length, natBytes_length])

theorem serdebuf_serialize_ok (v : SrcVal) (sb : SB) (h : valOk v = true) :
    ∃ cap, serdebuf_serialize sb v = .ok ⟨sb.data ++ encValue v, cap⟩ := by
  cases v with
  | prim p =>
    exact ⟨(putPrim sb p).cap, ok_eq_of_data (putPrim_data sb p)⟩
  | cclosure ups fp =>
    obtain ⟨cap, hups⟩ := serialize_upvalues_ok (serdebuf_append sb [SERDE_CCLOSURE]) ups
      (by simpa [valOk] using h)
    refine ⟨(serdebuf_append ⟨(serdebuf_append sb [SERDE_CCLOSURE]).data ++
      (natBytes 4 ups.length ++ encUps ups), cap⟩ (natBytes 8 fp)).cap, ?_⟩
    unfold serdebuf_serialize
    simp only [hups]
    refine ok_eq_of_data ?_
    rw [serdebuf_append_data]
    dsimp only
    rw [serdebuf_append_data]
    simp [encValue]
  | lclosure ups bc =>
    obtain ⟨cap, hups⟩ := serialize_upvalues_ok (serdebuf_append sb [SERDE_LCLOSURE]) ups
      (by simpa [valOk] using h)
    refine ⟨(serdebuf_dump ⟨(serdebuf_append sb [SERDE_LCLOSURE]).data ++
      (natBytes 4 ups.length ++ encUps ups), cap⟩ bc).cap, ?_⟩
    unfold serdebuf_serialize
    simp only [hups]
    refine ok_eq_of_data ?_
    rw [serdebuf_dump_data]
    dsimp only
    rw [serdebuf_append_data]
    simp [encValue]
  | custom t blob =>
    refine ⟨(serdebuf_serialize_custom ⟨writeBytes (serdebuf_append sb [SERDE_CUSTOM]).data
      (serdebuf_size sb) [t % 256], (serdebuf_append sb [SERDE_CUSTOM]).cap⟩ blob).cap, ?_⟩
    unfold serdebuf_serialize
    refine ok_eq_of_data ?_
    rw [serialize_custom_data]
    dsimp only
    have htag : writeBytes (sb.data ++ [SERDE_CUSTOM]) sb.data.length [t % 256] =
        sb.data ++ [t % 256] := by
      have := writeBytes_shape sb.data [SERDE_CUSTOM] [] [t % 256] (by rfl)
      simpa using this
    rw [serdebuf_append_data, serdebuf_size, htag]
    simp [encValue]

theorem encodeValue_ok (v : SrcVal) (h : valOk v = true) :
    encodeValue v = .ok (encValue v) := by
  obtain ⟨cap, hs⟩ := serdebuf_serialize_ok v (serdebuf_init v) h
  unfold encodeValue
  rw [hs]
  rfl

/-! ### Decoder round-trip lemmas -/

theorem pow256_8 : (256 : Nat) ^ 8 = 2 ^ 64 := by norm_num

theorem pow256_4 : (256 : Nat) ^ 4 = 2 ^ 32 := by norm_num

theorem load_prim (v : SVal) (h : primWf v = true) (fuel : Nat) (ctx : DecCtx)
    (rest : List Nat) :
    loadsharedimpl (fuel + 1) ctx (encPrim v ++ rest) = .ok (.val (obsPrim v)) rest := by
  cases v with
  | vnil =>
    simp [encPrim, obsPrim, loadsharedimpl, SERDE_ENV, SERDE_NIL]
  | vbool b =>
    cases b <;>
      simp [encPrim, obsPrim, loadsharedimpl, consume, leNat,
        SERDE_ENV, SERDE_NIL, SERDE_BOOLEAN]
  | vptr n =>
    have hn : n < 2 ^ 64 := by simpa [primWf] using h
    have hc := consume_of_len 8 (natBytes 8 n) rest (natBytes_length 8 n)
    simp [encPrim, obsPrim, loadsharedimpl, hc,
      leNat_natBytes_small 8 n (by rw [pow256_8]; exact hn),
      SERDE_ENV, SERDE_NIL, SERDE_BOOLEAN, SERDE_LIGHTUSERDATA]
  | vint n =>
    have hn : n < 2 ^ 64 := by simpa [primWf] using h
    have hc := consume_of_len 8 (natBytes 8 n) rest (natBytes_length 8 n)
    simp [encPrim, obsPrim, loadsharedimpl, hc,
      leNat_natBytes_small 8 n (by rw [pow256_8]; exact hn),
      SERDE_ENV, SERDE_NIL, SERDE_BOOLEAN, SERDE_LIGHTUSERDATA, SERDE_NUMBER,
      SERDE_INTEGER]
  | vnum n =>
    have hn : n < 2 ^ 64 := by simpa [primWf] using h
    have hc := consume_of_len 8 (natBytes 8 n) rest (natBytes_length 8 n)
    simp [encPrim, obsPrim, loadsharedimpl, hc,
      leNat_natBytes_small 8 n (by rw [pow256_8]; exact hn),
      SERDE_ENV, SERDE_NIL, SERDE_BOOLEAN, SERDE_LIGHTUSERDATA, SERDE_NUMBER]
  | vstr str =>
    have hn : str.length < 2 ^ 64 := by simpa [primWf] using h
    have hc1 := consume_of_len 8 (natBytes 8 str.length) (str ++ rest)
      (natBytes_length 8 str.length)
    have hlen : leNat (natBytes 8 str.length) = str.length :=
      leNat_natBytes_small 8 str.length (by rw [pow256_8]; exact hn)
    have hc2 := consume_of_len str.length str rest rfl
    simp [encPrim, obsPrim, loadsharedimpl, List.append_assoc, hc1, hlen, hc2,
      SERDE_ENV, SERDE_NIL, SERDE_BOOLEAN, SERDE_LIGHTUSERDATA, SERDE_NUMBER,
      SERDE_INTEGER, SERDE_STRING]

theorem load_upvals (ups : List SUp) (ctx : DecCtx) :
    ups.all upSimple = true →
    ∀ fuel env rest, ups.length + 1 ≤ fuel →
    loadupvalues fuel ctx ups.length env (encUps ups ++ rest) =
      .ok (obsUps ups) env rest := by
  induction ups with
  | nil =>
    intro _ fuel env rest hf
    obtain ⟨f, rfl⟩ : ∃ f, fuel = f + 1 := ⟨fuel - 1, by omega⟩
    simp [encUps, loadupvalues, obsUps]
  | cons u us ih =>
    intro h fuel env rest hf
    simp only [List.all_cons, Bool.and_eq_true] at h
    obtain ⟨hu, hus⟩ := h
    simp only [List.length_cons] at hf
    obtain ⟨f, rfl⟩ : ∃ f, fuel = f + 2 := ⟨fuel - 2, by omega⟩
    cases u with
    | uval v =>
      have hv : primWf v = true := by simpa [upSimple] using hu
      have h1 := load_prim v hv f ctx (encUps us ++ rest)
      have h2 := ih hus (f + 1) env rest (by omega)
      show loadupvalues (f + 1 + 1) ctx (us.length + 1) env
        ((encPrim v ++ encUps us) ++ rest) = _
      rw [List.append_assoc]
      simp [loadupvalues, h1, h2, obsUps]
    | uenv => simp [upSimple] at hu
    | ubad => simp [upSimple] at hu

theorem load_cclosure (ups : List SUp) (fp : Nat) (ctx : DecCtx)
    (h : closWf ctx (.cclosure ups fp)) (fuel : Nat) (hf : ups.length + 3 ≤ fuel)
    (rest : List Nat) :
    loadsharedimpl fuel ctx (encValue (.cclosure ups fp) ++ rest) =
      .ok (.val (.dcclosure (obsUps ups) false fp)) rest := by
  obtain ⟨hsimple, hlen, hfp⟩ := h
  obtain ⟨f, rfl⟩ : ∃ f, fuel = f + 1 := ⟨fuel - 1, by omega⟩
  have hc1 := consume_of_len 4 (natBytes 4 ups.length)
    (encUps ups ++ (natBytes 8 fp ++ rest)) (natBytes_length 4 ups.length)
  have hcount : leNat (natBytes 4 ups.length) = ups.length :=
    leNat_natBytes_small 4 ups.length (by rw [pow256_4]; exact hlen)
  have hups := load_upvals ups ctx hsimple f false (natBytes 8 fp ++ rest) (by omega)
  have hc2 := consume_of_len 8 (natBytes 8 fp) rest (natBytes_length 8 fp)
  simp [encValue, loadsharedimpl, List.append_assoc, hc1, hcount, hups, hc2,
    leNat_natBytes_small 8 fp (by rw [pow256_8]; exact hfp),
    SERDE_ENV, SERDE_NIL, SERDE_BOOLEAN, SERDE_LIGHTUSERDATA, SERDE_NUMBER,
    SERDE_INTEGER, SERDE_STRING, SERDE_LCLOSURE, SERDE_CCLOSURE]

theorem load_lclosure (ups : List SUp) (bc : List Nat) (ctx : DecCtx)
    (h : closWf ctx (.lclosure ups bc)) (fuel : Nat) (hf : ups.length + 3 ≤ fuel)
    (rest : List Nat) :
    loadsharedimpl fuel ctx (encValue (.lclosure ups bc) ++ rest) =
      .ok (.val (.dlclosure (obsUps ups) false bc)) rest := by
  obtain ⟨hsimple, hlen, hbc, hok⟩ := h
  obtain ⟨f, rfl⟩ : ∃ f, fuel = f + 1 := ⟨fuel - 1, by omega⟩
  have hc1 := consume_of_len 4 (natBytes 4 ups.length)
    (encUps ups ++ (natBytes 8 bc.length ++ (bc ++ rest))) (natBytes_length 4 ups.length)
  have hcount : leNat (natBytes 4 ups.length) = ups.length :=
    leNat_natBytes_small 4 ups.length (by rw [pow256_4]; exact hlen)
  have hups := load_upvals ups ctx hsimple f false
    (natBytes 8 bc.length ++ (bc ++ rest)) (by omega)
  have hc2 := consume_of_len 8 (natBytes 8 bc.length) (bc ++ rest)
    (natBytes_length 8 bc.length)
  have hsz : leNat (natBytes 8 bc.length) = bc.length :=
    leNat_natBytes_small 8 bc.length (by rw [pow256_8]; exact hbc)
  have hc3 := consume_of_len bc.length bc rest rfl
  simp [encValue, loadsharedimpl, List.append_assoc, hc1, hcount, hups, hc2, hsz, hc3,
    hok, SERDE_ENV, SERDE_NIL, SERDE_BOOLEAN, SERDE_LIGHTUSERDATA, SERDE_NUMBER,
    SERDE_INTEGER, SERDE_STRING, SERDE_LCLOSURE]

theorem load_closure (c : SrcVal) (ctx : DecCtx) (h : closWf ctx c) (fuel : Nat)
    (hf : fuelClos c ≤ fuel) (rest : List Nat) :
    loadsharedimpl fuel ctx (encValue c ++ rest) = .ok (.val (obsVal c)) rest := by
  cases c with
  | prim p => exact absurd h (by simp [closWf])
  | custom t blob => exact absurd h (by simp [closWf])
  | cclosure ups fp =>
    exact load_cclosure ups fp ctx h fuel (by simpa [fuelClos] using hf) rest
  | lclosure ups bc =>
    exact load_lclosure ups bc ctx h fuel (by simpa [fuelClos] using hf) rest

theorem encUps_length (ups : List SUp) (h : ups.all upSimple = true) :
    ups.length ≤ (encUps ups).length := by
  induction ups with
  | nil => simp [encUps]
  | cons u us ih =>
    simp only [List.all_cons, Bool.and_eq_true] at h
    obtain ⟨hu, hus⟩ := h
    have h1 : 1 ≤ (encUp u).length := by
      cases u with
      | uval v => cases v <;> simp [encUp, encPrim]
      | uenv => simp [upSimple] at hu
      | ubad => simp [upSimple] at hu
    have := ih hus
    simp only [List.length_cons, encUps, List.length_append]
    omega

theorem fuelClos_le_enc (c : SrcVal) (ctx : DecCtx) (h : closWf ctx c) :
    fuelClos c ≤ (encValue c).length := by
  cases c with
  | prim p => exact absurd h (by simp [closWf])
  | custom t blob => exact absurd h (by simp [closWf])
  | cclosure ups fp =>
    obtain ⟨hsimple, _, _⟩ := h
    have := encUps_length ups hsimple
    simp only [fuelClos, encValue, List.length_cons, List.length_append,
      natBytes_length]
    omega
  | lclosure ups bc =>
    obtain ⟨hsimple, _, _, _⟩ := h
    have := encUps_length ups hsimple
    simp only [fuelClos, encValue, List.length_cons, List.length_append,
      natBytes_length]
    omega

theorem load_custom_cached (t : Nat) (blob : List Nat) (ctx : DecCtx)
    (h9 : SERDE_CUSTOM ≤ t) (h127 : t ≤ 127) (hpos : 0 < blob.length)
    (hblen : blob.length < 2 ^ 64)
    (hcache : ctx.cached t = true)
    (fuel : Nat) (rest : List Nat) :
    loadsharedimpl (fuel + 1) ctx (encValue (.custom t blob) ++ rest) =
      (if ctx.deOk t blob then .ok (.val (.dcustom t blob)) (blob ++ rest)
       else .fail) := by
  simp only [SERDE_CUSTOM] at h9
  have hmod : t % 256 = t := Nat.mod_eq_of_lt (by omega)
  have hc1 := consume_of_len 8 (natBytes 8 blob.length) (blob ++ rest)
    (natBytes_length 8 blob.length)
  have hsz : leNat (natBytes 8 blob.length) = blob.length :=
    leNat_natBytes_small 8 blob.length (by rw [pow256_8]; exact hblen)
  have htake : (blob ++ rest).take blob.length = blob := List.take_left blob rest
  simp [encValue, loadsharedimpl, List.append_assoc, hmod, hc1, hsz, htake, hcache,
    show blob.length ≠ 0 by omega,
    show ¬(128 ≤ t) by omega, show t ≠ SERDE_ENV by simp [SERDE_ENV]; omega,
    show t ≠ SERDE_NIL by simp [SERDE_NIL]; omega,
    show t ≠ SERDE_BOOLEAN by simp [SERDE_BOOLEAN]; omega,
    show t ≠ SERDE_LIGHTUSERDATA by simp [SERDE_LIGHTUSERDATA]; omega,
    show t ≠ SERDE_NUMBER by simp [SERDE_NUMBER]; omega,
    show t ≠ SERDE_INTEGER by simp [SERDE_INTEGER]; omega,
    show t ≠ SERDE_STRING by simp [SERDE_STRING]; omega,
    show t ≠ SERDE_LCLOSURE by simp [SERDE_LCLOSURE]; omega,
    show t ≠ SERDE_CCLOSURE by simp [SERDE_CCLOSURE]; omega,
    show blob.length ≤ (blob ++ rest).length by simp]

theorem load_custom_cold (t : Nat) (blob : List Nat) (ctx : DecCtx)
    (h9 : SERDE_CUSTOM ≤ t) (h127 : t ≤ 127) (hpos : 0 < blob.length)
    (hblen : blob.length < 2 ^ 64)
    (hcache : ctx.cached t = false) (hgarb : ctx.envG = false)
    (hslot : t - SERDE_CUSTOM < ctx.slots.length)
    (c1 c2 : SrcVal)
    (hbytes : ctx.slots.getD (t - SERDE_CUSTOM) [] = encValue c1 ++ encValue c2)
    (hc1 : closWf ctx c1) (hc2 : closWf ctx c2)
    (fuel : Nat) (hf : (ctx.slots.getD (t - SERDE_CUSTOM) []).length + 2 ≤ fuel)
    (rest : List Nat) :
    loadsharedimpl fuel ctx (encValue (.custom t blob) ++ rest) =
      (if ctx.deOk t blob then .ok (.val (.dcustom t blob)) (blob ++ rest)
       else .fail) := by
  obtain ⟨f, rfl⟩ : ∃ f, fuel = f + 1 := ⟨fuel - 1, by omega⟩
  simp only [SERDE_CUSTOM] at h9
  have hb1 : fuelClos c1 ≤ f := by
    have h1 := fuelClos_le_enc c1 ctx hc1
    rw [hbytes] at hf
    simp only [List.length_append] at hf
    omega
  have hb2 : fuelClos c2 ≤ f := by
    have h1 := fuelClos_le_enc c2 ctx hc2
    rw [hbytes] at hf
    simp only [List.length_append] at hf
    omega
  have hl1 : loadsharedimpl f ctx (encValue c1 ++ encValue c2) =
      .ok (.val (obsVal c1)) (encValue c2) := load_closure c1 ctx hc1 f hb1 (encValue c2)
  have hl2 : loadsharedimpl f ctx (encValue c2) = .ok (.val (obsVal c2)) [] := by
    have h1 := load_closure c2 ctx hc2 f hb2 []
    simpa using h1
  have hmod : t % 256 = t := Nat.mod_eq_of_lt (by omega)
  have hc1' := consume_of_len 8 (natBytes 8 blob.length) (blob ++ rest)
    (natBytes_length 8 blob.length)
  have hsz : leNat (natBytes 8 blob.length) = blob.length :=
    leNat_natBytes_small 8 blob.length (by rw [pow256_8]; exact hblen)
  have htake : (blob ++ rest).take blob.length = blob := List.take_left blob rest
  rw [List.getD_eq_getElem ctx.slots [] hslot] at hbytes
  show loadsharedimpl (f + 1) ctx ((t % 256 :: (natBytes 8 blob.length ++ blob)) ++ rest) = _
  simp [loadsharedimpl, List.append_assoc, hmod, hc1', hsz, htake, hcache,
    hslot, hbytes, hl1, hl2, hgarb,
    show blob.length ≠ 0 by omega,
    show ¬(128 ≤ t) by omega, show t ≠ SERDE_ENV by simp [SERDE_ENV]; omega,
    show t ≠ SERDE_NIL by simp [SERDE_NIL]; omega,
    show t ≠ SERDE_BOOLEAN by simp [SERDE_BOOLEAN]; omega,
    show t ≠ SERDE_LIGHTUSERDATA by simp [SERDE_LIGHTUSERDATA]; omega,
    show t ≠ SERDE_NUMBER by simp [SERDE_NUMBER]; omega,
    show t ≠ SERDE_INTEGER by simp [SERDE_INTEGER]; omega,
    show t ≠ SERDE_STRING by simp [SERDE_STRING]; omega,
    show t ≠ SERDE_LCLOSURE by simp [SERDE_LCLOSURE]; omega,
    show t ≠ SERDE_CCLOSURE by simp [SERDE_CCLOSURE]; omega,
    show blob.length ≤ (blob ++ rest).length by simp]

theorem simple_notBad (ups : List SUp) (h : ups.all upSimple = true) :
    ups.all upNotBad = true := by
  simp only [List.all_eq_true] at h ⊢
  intro u hu
  have := h u hu
  cases u <;> simp_all [upSimple, upNotBad]

theorem c1dom_valOk (ctx : DecCtx) (v : SrcVal) (h : C1Dom ctx v) : valOk v = true := by
  cases v with
  | prim p => rfl
  | cclosure ups fp => exact simple_notBad ups h.1
  | lclosure ups bc => exact simple_notBad ups h.1
  | custom t blob => rfl

/-! ### Claim C1: round-trip law (code bug: uninitialized env read) -/

/-- C1 states the spec's round-trip law: for every supported value V
(a primitive, a closure whose upvalues are simple-typed, or a custom value
with a well-formed serialize/deserialize pair, here restricted to a
nonempty blob since fmemopen rejects a zero-length span with EINVAL), the
encode pipeline succeeds and decoding the produced buffer pushes exactly
one value observationally equivalent to V.  The law holds of
loadsharedimpl, which determinately reconstructs V from the bytes
(conjunct 2), but not of the program's entry point loadshared: it
declares `bool env;` with no initializer and loadsharedimpl writes env
only in the SERDE_ENV case — never for the values of this domain — so its
final test reads an indeterminate value.  When that garbage happens to be
false the round trip goes through (conjunct 3), and when it is true
loadshared returns NULL even though the decoded value was pushed
(conjunct 4): the decode outcome depends on an uninitialized read, not
only on the buffer, so the claimed round trip is not a property the
program guarantees.  The context hypotheses cover both a decoder that has
the type code in its per-interpreter cache and one that loads the pair
from the published global slot (with the nested uninitialized reads of
that path also happening to be false). -/
theorem c1_env_uninitialized (ctx : DecCtx) (v : SrcVal) (rest : List Nat) (fuel : Nat)
    (hdom : C1Dom ctx v) (hf : c1fuel ctx v ≤ fuel) (hg : ctx.envG = false) :
    encodeValue v = .ok (encValue v) ∧
    loadsharedimpl fuel ctx (encValue v ++ rest) =
      .ok (.val (obsVal v)) (decodeLeft v rest) ∧
    loadshared false fuel ctx (encValue v ++ rest) =
      .ok (.val (obsVal v)) (decodeLeft v rest) ∧
    loadshared true fuel ctx (encValue v ++ rest) = .fail := by
  refine ⟨encodeValue_ok v (c1dom_valOk ctx v hdom), ?_⟩
  have himpl : loadsharedimpl fuel ctx (encValue v ++ rest) =
      .ok (.val (obsVal v)) (decodeLeft v rest) := by
    cases v with
    | prim p =>
      obtain ⟨f, rfl⟩ : ∃ f, fuel = f + 1 := ⟨fuel - 1, by simp [c1fuel] at hf; omega⟩
      have h := load_prim p hdom f ctx rest
      simp [obsVal, encValue, decodeLeft, h]
    | cclosure ups fp =>
      have h := load_cclosure ups fp ctx hdom fuel (by simpa [c1fuel] using hf) rest
      simp [obsVal, decodeLeft, h]
    | lclosure ups bc =>
      have h := load_lclosure ups bc ctx hdom fuel (by simpa [c1fuel] using hf) rest
      simp [obsVal, decodeLeft, h]
    | custom t blob =>
      obtain ⟨h9, h127, hpos, hblen, hde, hbr⟩ := hdom
      show loadsharedimpl fuel ctx (encValue (.custom t blob) ++ rest) =
        .ok (.val (obsVal (.custom t blob))) (blob ++ rest)
      rcases hbr with hcache | ⟨hcache, hslot, c1, c2, hbytes, hc1, hc2⟩
      · obtain ⟨f, rfl⟩ : ∃ f, fuel = f + 1 :=
          ⟨fuel - 1, by simp [c1fuel, hcache] at hf; omega⟩
        have h := load_custom_cached t blob ctx h9 h127 hpos hblen hcache f rest
        simp [obsVal, h, hde]
      · have h := load_custom_cold t blob ctx h9 h127 hpos hblen hcache hg hslot
          c1 c2 hbytes hc1 hc2 fuel (by simpa [c1fuel, hcache] using hf) rest
        simp [obsVal, h, hde]
  refine ⟨himpl, ?_, ?_⟩
  · simp [loadshared, himpl]
  · simp [loadshared, himpl]

/-- Witness for the C1 code-bug theorem at the spec's end-to-end example:
the nine-byte encoding of the integer 42 decodes determinately back to 42,
and loadshared returns that value when the garbage in its uninitialized
env variable happens to be false but NULL when it happens to be true. -/
theorem c1_env_uninitialized_witness :
    encodeValue (.prim (.vint 42)) = .ok (encValue (.prim (.vint 42))) ∧
    loadsharedimpl 1 ctxAll (encValue (.prim (.vint 42)) ++ []) =
      .ok (.val (obsVal (.prim (.vint 42)))) (decodeLeft (.prim (.vint 42)) []) ∧
    loadshared false 1 ctxAll (encValue (.prim (.vint 42)) ++ []) =
      .ok (.val (obsVal (.prim (.vint 42)))) (decodeLeft (.prim (.vint 42)) []) ∧
    loadshared true 1 ctxAll (encValue (.prim (.vint 42)) ++ []) = .fail :=
  c1_env_uninitialized ctxAll (.prim (.vint 42)) [] 1
    (by show primWf (SVal.vint 42) = true; decide) (by decide) rfl

/-! ### Claim C5: upvalue constraint enforcement -/

/-- C5: a closure having an upvalue (other than the special _ENV upvalue)
of type function, table, userdata or thread fails to encode with the
validation error EINVAL, for both C closures and Lua closures, and no
encoded buffer is handed to the caller: the pipeline result is the bare
error (the callers run serdebuf_destroy on this path). -/
theorem c5_upvalue_einval (ups : List SUp) (fp : Nat) (bc : List Nat)
    (h : SUp.ubad ∈ ups) :
    encodeValue (.cclosure ups fp) = .error EINVAL ∧
    encodeValue (.lclosure ups bc) = .error EINVAL := by
  constructor
  · unfold encodeValue serdebuf_serialize
    simp only [serialize_upvalues_bad _ ups h]
  · unfold encodeValue serdebuf_serialize
    simp only [serialize_upvalues_bad _ ups h]

/-- Witness for C5: a closure whose only upvalue is of a rejected kind. -/
theorem c5_upvalue_einval_witness :
    encodeValue (.cclosure [SUp.ubad] 3) = .error EINVAL ∧
    encodeValue (.lclosure [SUp.ubad] [1]) = .error EINVAL :=
  c5_upvalue_einval [SUp.ubad] 3 [1] (by decide)

/-! ### Claim C6: backpatch correctness -/

/-- C6: every length or count field that is backpatched after recursive
sub-encoding is exact in the finished buffer: the Lua-closure bytecode size
field decodes to exactly the number of bytecode bytes that follow it, the
custom blob size field to exactly the number of blob bytes that follow it,
and the upvalue count field to exactly the number of upvalues — even
though the appends between reserving the field and backpatching it can
grow and relocate the buffer (the store goes through an address recomputed
from the saved offset, which `serdebuf_dump`, `serdebuf_serialize_custom`
and `serdebuf_serialize_upvalues` model; the growth steps never change the
already-written prefix). -/
theorem c6_backpatch (ups : List SUp) (bc : List Nat) (t : Nat) (blob : List Nat)
    (fp : Nat)
    (hups : ups.all upNotBad = true) (hcount : ups.length < 2 ^ 32)
    (hbc : bc.length < 2 ^ 64) (hblob : blob.length < 2 ^ 64) :
    (encodeValue (.lclosure ups bc) =
        .ok (SERDE_LCLOSURE :: (natBytes 4 ups.length ++ encUps ups ++
          natBytes 8 bc.length ++ bc)) ∧
      leNat (natBytes 8 bc.length) = bc.length ∧
      leNat (natBytes 4 ups.length) = ups.length) ∧
    (encodeValue (.cclosure ups fp) =
        .ok (SERDE_CCLOSURE :: (natBytes 4 ups.length ++ encUps ups ++
          natBytes 8 fp))) ∧
    (encodeValue (.custom t blob) =
        .ok (t % 256 :: (natBytes 8 blob.length ++ blob)) ∧
      leNat (natBytes 8 blob.length) = blob.length) := by
  refine ⟨⟨?_, ?_, ?_⟩, ?_, ?_, ?_⟩
  · exact encodeValue_ok (.lclosure ups bc) hups
  · exact leNat_natBytes_small 8 bc.length (by rw [pow256_8]; exact hbc)
  · exact leNat_natBytes_small 4 ups.length (by rw [pow256_4]; exact hcount)
  · exact encodeValue_ok (.cclosure ups fp) hups
  · exact encodeValue_ok (.custom t blob) rfl
  · exact leNat_natBytes_small 8 blob.length (by rw [pow256_8]; exact hblob)

/-- Witness for C6 at a concrete closure, custom value and upvalue list. -/
theorem c6_backpatch_witness :
    (encodeValue (.lclosure [SUp.uenv] [9, 9]) =
        .ok (SERDE_LCLOSURE :: (natBytes 4 1 ++ encUps [SUp.uenv] ++
          natBytes 8 2 ++ [9, 9])) ∧
      leNat (natBytes 8 2) = 2 ∧
      leNat (natBytes 4 1) = 1) ∧
    (encodeValue (.cclosure [SUp.uenv] 3) =
        .ok (SERDE_CCLOSURE :: (natBytes 4 1 ++ encUps [SUp.uenv] ++ natBytes 8 3))) ∧
    (encodeValue (.custom 10 [1]) =
        .ok (10 % 256 :: (natBytes 8 1 ++ [1])) ∧
      leNat (natBytes 8 1) = 1) :=
  c6_backpatch [SUp.uenv] [9, 9] 10 [1] 3 (by decide) (by decide) (by decide) (by decide)

/-! ### Claim C7: buffer growth -/

/-- C7: for every append of `len` bytes to a buffer, all previously
appended bytes are preserved unchanged as a prefix of the grown buffer and
the used size increases by exactly `len`; when the needed total exceeds
the current capacity, the new capacity is the doubled old capacity — or
the exact needed size when doubling is insufficient — rounded up by
`serdebuf_roundup` to the page granule at or above CK_MD_PAGESIZE and to
the cacheline granule below it.  (The two upper bounds rule out 64-bit
wraparound, which no in-memory buffer can reach.) -/
theorem c7_append_growth (sb : SB) (bs : List Nat)
    (hcap : sb.cap < serdebuf_size sb + bs.length)
    (hsmall : 2 * sb.cap < 2 ^ 64) :
    (serdebuf_append sb bs).data = sb.data ++ bs ∧
    serdebuf_size (serdebuf_append sb bs) = serdebuf_size sb + bs.length ∧
    (serdebuf_append sb bs).cap =
      serdebuf_roundup
        (if 2 * sb.cap < serdebuf_size sb + bs.length
         then serdebuf_size sb + bs.length
         else 2 * sb.cap) := by
  refine ⟨serdebuf_append_data sb bs, ?_, ?_⟩
  · simp [serdebuf_size, serdebuf_append_data]
  · unfold serdebuf_append serdebuf_resize
    dsimp only
    rw [if_pos hcap, Nat.mod_eq_of_lt hsmall]

/-- Witness for C7: appending 4 bytes to a full 3-byte buffer more than
doubles it, so the capacity becomes the needed size rounded to a cacheline. -/
theorem c7_append_growth_witness :
    (serdebuf_append ⟨[1, 2, 3], 3⟩ [4, 5, 6, 7]).data = [1, 2, 3] ++ [4, 5, 6, 7] ∧
    serdebuf_size (serdebuf_append ⟨[1, 2, 3], 3⟩ [4, 5, 6, 7]) =
      serdebuf_size ⟨[1, 2, 3], 3⟩ + 4 ∧
    (serdebuf_append ⟨[1, 2, 3], 3⟩ [4, 5, 6, 7]).cap =
      serdebuf_roundup
        (if 2 * 3 < serdebuf_size ⟨[1, 2, 3], 3⟩ + 4
         then serdebuf_size ⟨[1, 2, 3], 3⟩ + 4
         else 2 * 3) :=
  c7_append_growth ⟨[1, 2, 3], 3⟩ [4, 5, 6, 7] (by decide) (by decide)

/-! ### Decoder pointer discipline (for claim C2) -/

theorem suffix_trans {l m r : List Nat} (h1 : ∃ t, l = t ++ m) (h2 : ∃ t, m = t ++ r) :
    ∃ t, l = t ++ r := by
  obtain ⟨t1, rfl⟩ := h1
  obtain ⟨t2, rfl⟩ := h2
  exact ⟨t1 ++ t2, by simp⟩

theorem consume_suffix (n : Nat) (l a r : List Nat) (h : consume n l = some (a, r)) :
    ∃ t, l = t ++ r := ⟨a, (consume_some n l a r h).1⟩

/-- Every successful decode (and upvalue-list decode) returns a pointer
that lies inside the input: the rest is a suffix of the given bytes.  The
custom branch returns the pointer at the start of the blob, which is still
a suffix, but not the pointer past the blob. -/
theorem decode_rest_suffix : ∀ fuel,
    (∀ ctx l r rest, loadsharedimpl fuel ctx l = .ok r rest → ∃ t, l = t ++ rest) ∧
    (∀ ctx c env l vals e rest, loadupvalues fuel ctx c env l = .ok vals e rest →
      ∃ t, l = t ++ rest) := by
  intro fuel
  induction fuel with
  | zero =>
    refine ⟨?_, ?_⟩
    · intro ctx l r rest h
      exact absurd h (by simp [loadsharedimpl])
    · intro ctx c env l vals e rest h
      exact absurd h (by simp [loadupvalues])
  | succ f ih =>
    obtain ⟨ihV, ihU⟩ := ih
    refine ⟨?_, ?_⟩
    · intro ctx l r rest h
      match l with
      | [] => exact absurd h (by simp [loadsharedimpl])
      | b :: p =>
        have hcons : ∃ t, b :: p = t ++ p := ⟨[b], rfl⟩
        unfold loadsharedimpl at h
        dsimp only at h
        by_cases h128 : 128 ≤ b % 256
        · rw [if_pos h128] at h
          exact absurd h (by simp)
        rw [if_neg h128] at h
        by_cases ht0 : b % 256 = SERDE_ENV
        · rw [if_pos ht0] at h
          injection h with h1 h2
          subst h2
          exact hcons
        rw [if_neg ht0] at h
        by_cases ht1 : b % 256 = SERDE_NIL
        · rw [if_pos ht1] at h
          injection h with h1 h2
          subst h2
          exact hcons
        rw [if_neg ht1] at h
        by_cases ht2 : b % 256 = SERDE_BOOLEAN
        · rw [if_pos ht2] at h
          split at h
          · exact absurd h (by simp)
          · next v p1 heq =>
            injection h with h1 h2
            subst h2
            exact suffix_trans hcons (consume_suffix _ _ _ _ heq)
        rw [if_neg ht2] at h
        by_cases ht3 : b % 256 = SERDE_LIGHTUSERDATA
        · rw [if_pos ht3] at h
          split at h
          · exact absurd h (by simp)
          · next v p1 heq =>
            injection h with h1 h2
            subst h2
            exact suffix_trans hcons (consume_suffix _ _ _ _ heq)
        rw [if_neg ht3] at h
        by_cases ht5 : b % 256 = SERDE_NUMBER
        · rw [if_pos ht5] at h
          split at h
          · exact absurd h (by simp)
          · next v p1 heq =>
            injection h with h1 h2
            subst h2
            exact suffix_trans hcons (consume_suffix _ _ _ _ heq)
        rw [if_neg ht5] at h
        by_cases ht4 : b % 256 = SERDE_INTEGER
        · rw [if_pos ht4] at h
          split at h
          · exact absurd h (by simp)
          · next v p1 heq =>
            injection h with h1 h2
            subst h2
            exact suffix_trans hcons (consume_suffix _ _ _ _ heq)
        rw [if_neg ht4] at h
        by_cases ht6 : b % 256 = SERDE_STRING
        · rw [if_pos ht6] at h
          split at h
          · exact absurd h (by simp)
          · next lenb p1 heq1 =>
            split at h
            · exact absurd h (by simp)
            · next sbytes p2 heq2 =>
              injection h with h1 h2
              subst h2
              exact suffix_trans hcons (suffix_trans (consume_suffix _ _ _ _ heq1)
                (consume_suffix _ _ _ _ heq2))
        rw [if_neg ht6] at h
        by_cases ht8 : b % 256 = SERDE_LCLOSURE
        · rw [if_pos ht8] at h
          split at h
          · exact absurd h (by simp)
          · next cb p1 heq1 =>
            split at h
            · exact absurd h (by simp)
            · exact absurd h (by simp)
            · exact absurd h (by simp)
            · next vals env p2 hups =>
              split at h
              · exact absurd h (by simp)
              · next szb p3 heq2 =>
                split at h
                · exact absurd h (by simp)
                · next bcb p4 heq3 =>
                  split at h
                  · injection h with h1 h2
                    subst h2
                    exact suffix_trans hcons (suffix_trans (consume_suffix _ _ _ _ heq1)
                      (suffix_trans (ihU _ _ _ _ _ _ _ hups)
                        (suffix_trans (consume_suffix _ _ _ _ heq2)
                          (consume_suffix _ _ _ _ heq3))))
                  · exact absurd h (by simp)
        rw [if_neg ht8] at h
        by_cases ht7 : b % 256 = SERDE_CCLOSURE
        · rw [if_pos ht7] at h
          split at h
          · exact absurd h (by simp)
          · next cb p1 heq1 =>
            split at h
            · exact absurd h (by simp)
            · exact absurd h (by simp)
            · exact absurd h (by simp)
            · next vals env p2 hups =>
              split at h
              · exact absurd h (by simp)
              · next fpb p3 heq2 =>
                injection h with h1 h2
                subst h2
                exact suffix_trans hcons (suffix_trans (consume_suffix _ _ _ _ heq1)
                  (suffix_trans (ihU _ _ _ _ _ _ _ hups) (consume_suffix _ _ _ _ heq2)))
        rw [if_neg ht7] at h
        split at h
        · exact absurd h (by simp)
        · next szb p1 heq1 =>
          have hsuf : ∃ t, b :: p = t ++ p1 :=
            suffix_trans hcons (consume_suffix _ _ _ _ heq1)
          split at h
          · exact absurd h (by simp)
          · split at h
            · split at h
              · split at h
                · injection h with h1 h2
                  subst h2
                  exact hsuf
                · exact absurd h (by simp)
              · split at h
                · split at h
                  · exact absurd h (by simp)
                  · exact absurd h (by simp)
                  · exact absurd h (by simp)
                  · exact absurd h (by simp)
                  · split at h
                    · exact absurd h (by simp)
                    · split at h
                      · exact absurd h (by simp)
                      · exact absurd h (by simp)
                      · exact absurd h (by simp)
                      · exact absurd h (by simp)
                      · split at h
                        · injection h with h1 h2
                          subst h2
                          exact hsuf
                        · exact absurd h (by simp)
                · exact absurd h (by simp)
            · exact absurd h (by simp)
    · intro ctx c env l vals e rest h
      match c with
      | 0 =>
        simp only [loadupvalues] at h
        injection h with h1 h2 h3
        subst h3
        exact ⟨[], rfl⟩
      | c + 1 =>
        simp only [loadupvalues] at h
        split at h
        · exact absurd h (by simp)
        · exact absurd h (by simp)
        · exact absurd h (by simp)
        · next rest1 himpl =>
          exact suffix_trans (ihV _ _ _ _ himpl) (ihU _ _ _ _ _ _ _ h)
        · next v rest1 himpl =>
          split at h
          · exact absurd h (by simp)
          · exact absurd h (by simp)
          · exact absurd h (by simp)
          · next vals1 env1 rest2 hrec =>
            injection h with h1 h2 h3
            subst h3
            exact suffix_trans (ihV _ _ _ _ himpl) (ihU _ _ _ _ _ _ _ hrec)

/-! ### Claim C2: decode pointer contract and failure modes -/

/-- An unregistered positive type code: the per-interpreter cache misses
and the global serde_cache slot is an unpublished NULL pointer, which the
decoder then dereferences. -/
theorem load_custom_unregistered (t : Nat) (blob : List Nat) (ctx : DecCtx)
    (h9 : SERDE_CUSTOM ≤ t) (h127 : t ≤ 127) (hpos : 0 < blob.length)
    (hblen : blob.length < 2 ^ 64)
    (hcache : ctx.cached t = false)
    (hslot : ¬(t - SERDE_CUSTOM < ctx.slots.length))
    (fuel : Nat) (rest : List Nat) :
    loadsharedimpl (fuel + 1) ctx (encValue (.custom t blob) ++ rest) = .undefined := by
  simp only [SERDE_CUSTOM] at h9
  have hmod : t % 256 = t := Nat.mod_eq_of_lt (by omega)
  have hc1 := consume_of_len 8 (natBytes 8 blob.length) (blob ++ rest)
    (natBytes_length 8 blob.length)
  have hsz : leNat (natBytes 8 blob.length) = blob.length :=
    leNat_natBytes_small 8 blob.length (by rw [pow256_8]; exact hblen)
  have htake : (blob ++ rest).take blob.length = blob := List.take_left blob rest
  simp [encValue, loadsharedimpl, List.append_assoc, hmod, hc1, hsz, htake, hcache,
    hslot, show blob.length ≠ 0 by omega,
    show ¬(128 ≤ t) by omega, show t ≠ SERDE_ENV by simp [SERDE_ENV]; omega,
    show t ≠ SERDE_NIL by simp [SERDE_NIL]; omega,
    show t ≠ SERDE_BOOLEAN by simp [SERDE_BOOLEAN]; omega,
    show t ≠ SERDE_LIGHTUSERDATA by simp [SERDE_LIGHTUSERDATA]; omega,
    show t ≠ SERDE_NUMBER by simp [SERDE_NUMBER]; omega,
    show t ≠ SERDE_INTEGER by simp [SERDE_INTEGER]; omega,
    show t ≠ SERDE_STRING by simp [SERDE_STRING]; omega,
    show t ≠ SERDE_LCLOSURE by simp [SERDE_LCLOSURE]; omega,
    show t ≠ SERDE_CCLOSURE by simp [SERDE_CCLOSURE]; omega,
    show blob.length ≤ (blob ++ rest).length by simp]

/-- A custom value with a zero-length blob: fmemopen rejects the zero-size
span with EINVAL, so the decode fails with NULL before any lookup of the
type code. -/
theorem load_custom_emptyblob (t : Nat) (ctx : DecCtx)
    (h9 : SERDE_CUSTOM ≤ t) (h127 : t ≤ 127) (fuel : Nat) (rest : List Nat) :
    loadsharedimpl (fuel + 1) ctx (encValue (.custom t []) ++ rest) = .fail := by
  simp only [SERDE_CUSTOM] at h9
  have hmod : t % 256 = t := Nat.mod_eq_of_lt (by omega)
  have hc1 := consume_of_len 8 (natBytes 8 0) rest (natBytes_length 8 0)
  have hsz : leNat (natBytes 8 0) = 0 := leNat_natBytes_small 8 0 (by norm_num)
  simp [encValue, loadsharedimpl, hmod, hc1, hsz,
    show ¬(128 ≤ t) by omega, show t ≠ SERDE_ENV by simp [SERDE_ENV]; omega,
    show t ≠ SERDE_NIL by simp [SERDE_NIL]; omega,
    show t ≠ SERDE_BOOLEAN by simp [SERDE_BOOLEAN]; omega,
    show t ≠ SERDE_LIGHTUSERDATA by simp [SERDE_LIGHTUSERDATA]; omega,
    show t ≠ SERDE_NUMBER by simp [SERDE_NUMBER]; omega,
    show t ≠ SERDE_INTEGER by simp [SERDE_INTEGER]; omega,
    show t ≠ SERDE_STRING by simp [SERDE_STRING]; omega,
    show t ≠ SERDE_LCLOSURE by simp [SERDE_LCLOSURE]; omega,
    show t ≠ SERDE_CCLOSURE by simp [SERDE_CCLOSURE]; omega]

/-- A tag byte with the sign bit set is a negative serde_type_code, which
loadsharedimpl rejects before dispatching. -/
theorem load_negative_tag :
    ∀ (env0 : Bool) fuel ctx (b : Nat) l, 128 ≤ b % 256 →
      loadshared env0 (fuel + 1) ctx (b :: l) = .fail := by
  intro env0 fuel ctx b l h128
  unfold loadshared loadsharedimpl
  dsimp only
  rw [if_pos h128]

/-- C2 counterexample: the claim fails on the code at two concrete inputs.
First, decoding the complete 10-byte encoding of the custom value with
type code 9 and blob [42] succeeds (in the execution where the garbage in
loadshared's uninitialized env variable is false) but returns the pointer
at the start of the blob — the remaining bytes are [42], not [] — because
the custom branch of loadsharedimpl returns `p` advanced past the size
field only, never past the blob.  Second, the truncated buffer [SERDE_BOOLEAN] (a
boolean tag with its payload cut off) does not make loadshared return NULL
as a decode failure: the C code memcpys the byte past the end of the
buffer (the model's undefined outcome), which is not the NULL-failure the
claim requires. -/
theorem c2_counterexample :
    (loadshared false 1 ctxAll (encValue (.custom 9 [42])) =
      .ok (.val (.dcustom 9 [42])) [42] ∧ ([42] : List Nat) ≠ []) ∧
    (loadshared false 1 ctxAll [SERDE_BOOLEAN] = .undefined ∧
      DecRes.undefined ≠ DecRes.fail) := by
  refine ⟨⟨rfl, by simp⟩, rfl, by simp⟩

/-- C2 amended: for every input, the decoder either pushes exactly one
reconstructed value and returns a pointer into the consumed range — for
custom values this is the pointer at the start of the length-prefixed
blob, not past it — or fails as a whole with NULL: a negative tag, a
top-level environment marker and an error raised by a user deserialize
function each cause loadshared to return NULL with no partial value, and
so does a custom value whose blob is empty (fmemopen rejects a zero-size
span with EINVAL).  Truncated buffers and positive type codes with no
registered slot and a nonempty blob are not detected: there the code
reads out of bounds or through a NULL serde_cache slot (undefined
behavior) instead of failing.  Every conjunct holds for both values of
the indeterminate bit that loadshared's uninitialized `bool env` reads:
these outcomes do not depend on it. -/
theorem c2_amended :
    (∀ (env0 : Bool) fuel ctx l r rest, loadshared env0 fuel ctx l = .ok r rest →
      rest.length ≤ l.length ∧ l.drop (l.length - rest.length) = rest) ∧
    (∀ (env0 : Bool) fuel ctx b l, 128 ≤ b % 256 →
      loadshared env0 (fuel + 1) ctx (b :: l) = .fail) ∧
    (∀ (env0 : Bool) fuel ctx l, loadshared env0 (fuel + 1) ctx (SERDE_ENV :: l) = .fail) ∧
    (∀ (env0 : Bool) fuel ctx t blob rest, SERDE_CUSTOM ≤ t → t ≤ 127 →
      blob.length < 2 ^ 64 →
      ctx.cached t = true → ctx.deOk t blob = false →
      loadshared env0 (fuel + 1) ctx (encValue (.custom t blob) ++ rest) = .fail) ∧
    (∀ fuel ctx, loadsharedimpl (fuel + 1) ctx [] = .undefined) ∧
    (∀ (env0 : Bool) fuel ctx t blob rest, SERDE_CUSTOM ≤ t → t ≤ 127 →
      0 < blob.length → blob.length < 2 ^ 64 →
      ctx.cached t = false → ¬(t - SERDE_CUSTOM < ctx.slots.length) →
      loadshared env0 (fuel + 1) ctx (encValue (.custom t blob) ++ rest) = .undefined) := by
  refine ⟨?_, ?_, ?_, ?_, ?_, ?_⟩
  · intro env0 fuel ctx l r rest h
    unfold loadshared at h
    cases hres : loadsharedimpl fuel ctx l with
    | ok r2 rest2 =>
      rw [hres] at h
      cases r2 with
      | envmark => exact absurd h (by simp)
      | val v =>
        cases env0 with
        | true => exact absurd h (by simp)
        | false =>
          injection h with h1 h2
          subst h2
          obtain ⟨t, rfl⟩ := (decode_rest_suffix fuel).1 ctx l (.val v) rest2 hres
          constructor
          · simp
          · have hlen : (t ++ rest2).length - rest2.length = t.length := by
              simp
            rw [hlen]
            exact List.drop_left t rest2
    | fail => rw [hres] at h; exact absurd h (by simp)
    | undefined => rw [hres] at h; exact absurd h (by simp)
    | oof => rw [hres] at h; exact absurd h (by simp)
  · exact load_negative_tag
  · intro env0 fuel ctx l
    rfl
  · intro env0 fuel ctx t blob rest h9 h127 hblen hcache hde
    rcases Nat.eq_zero_or_pos blob.length with hz | hpos
    · obtain rfl : blob = [] := List.length_eq_zero.mp hz
      have h := load_custom_emptyblob t ctx h9 h127 fuel rest
      unfold loadshared
      rw [h]
    · have h := load_custom_cached t blob ctx h9 h127 hpos hblen hcache fuel rest
      rw [hde] at h
      unfold loadshared
      rw [h]
      rfl
  · intro fuel ctx
    rfl
  · intro env0 fuel ctx t blob rest h9 h127 hpos hblen hcache hslot
    have h := load_custom_unregistered t blob ctx h9 h127 hpos hblen hcache hslot
      fuel rest
    unfold loadshared
    rw [h]

/-- Witness instantiating every part of the amended C2 theorem at concrete
inputs. -/
theorem c2_amended_witness :
    (([] : List Nat).length ≤ [SERDE_NIL].length ∧
      [SERDE_NIL].drop ([SERDE_NIL].length - ([] : List Nat).length) = []) ∧
    loadshared true 1 ctxAll [200] = .fail ∧
    loadshared true 1 ctxAll [SERDE_ENV] = .fail ∧
    loadshared false 1 ctxDeFail (encValue (.custom 9 [42]) ++ []) = .fail ∧
    loadsharedimpl 1 ctxAll [] = .undefined ∧
    loadshared false 1 ctxEmpty (encValue (.custom 9 [42]) ++ []) = .undefined := by
  obtain ⟨h1, h2, h3, h4, h5, h6⟩ := c2_amended
  exact ⟨h1 false 1 ctxAll [SERDE_NIL] (.val .dnil) [] rfl,
    h2 true 0 ctxAll 200 [] (by decide),
    h3 true 0 ctxAll [],
    h4 false 0 ctxDeFail 9 [42] [] (by decide) (by decide) (by decide) rfl rfl,
    h5 0 ctxAll,
    h6 false 0 ctxEmpty 9 [42] [] (by decide) (by decide) (by decide) (by decide)
      rfl (by decide)⟩

/-! ### Cache lemmas (for claims C3, C4, C8, C9, C10) -/

theorem pairKey_ok (p : SerdePair) (hs : valOk p.sv = true) (hd : valOk p.dv = true) :
    pairKey p = .ok (encValue p.sv ++ encValue p.dv) := by
  obtain ⟨cap1, h1⟩ := serdebuf_serialize_ok p.sv (serdebuf_init p.dv) hs
  obtain ⟨cap2, h2⟩ :=
    serdebuf_serialize_ok p.dv ⟨(serdebuf_init p.dv).data ++ encValue p.sv, cap1⟩ hd
  unfold pairKey
  simp only [h1, h2]
  simp [serdebuf_init]

theorem find_none_append (l1 l2 : List (Int × Nat × Nat)) (q : Int × Nat × Nat → Bool)
    (h : l1.find? q = none) : (l1 ++ l2).find? q = l2.find? q := by
  induction l1 with
  | nil => rfl
  | cons x xs ih =>
    cases hx : q x with
    | true =>
      rw [List.find?_cons_of_pos _ hx] at h
      exact absurd h (by simp)
    | false =>
      rw [List.find?_cons_of_neg _ (by simp [hx])] at h
      rw [List.cons_append, List.find?_cons_of_neg _ (by simp [hx])]
      exact ih h

theorem find_some_append (l1 l2 : List (Int × Nat × Nat)) (q : Int × Nat × Nat → Bool)
    (e : Int × Nat × Nat) (h : l1.find? q = some e) :
    (l1 ++ l2).find? q = some e := by
  induction l1 with
  | nil => exact absurd h (by simp)
  | cons x xs ih =>
    cases hx : q x with
    | true =>
      rw [List.find?_cons_of_pos _ hx] at h
      rw [List.cons_append, List.find?_cons_of_pos _ hx]
      exact h
    | false =>
      rw [List.find?_cons_of_neg _ (by simp [hx])] at h
      rw [List.cons_append, List.find?_cons_of_neg _ (by simp [hx])]
      exact ih h

theorem regFind_mono (reg extra : List (Int × Nat × Nat)) (sid did : Nat) (c : Int)
    (h : regFind reg sid did = some c) :
    regFind (reg ++ extra) sid did = some c := by
  unfold regFind at h ⊢
  cases hf : reg.find? (fun e => e.2.1 == sid && e.2.2 == did) with
  | none => rw [hf] at h; exact absurd h (by simp)
  | some e =>
    rw [hf] at h
    rw [find_some_append _ _ _ _ hf]
    exact h

theorem regFind_append_self (reg : List (Int × Nat × Nat)) (sid did : Nat) (c : Int)
    (h : regFind reg sid did = none) :
    regFind (reg ++ [(c, sid, did)]) sid did = some c := by
  unfold regFind at h ⊢
  have hn : reg.find? (fun e => e.2.1 == sid && e.2.2 == did) = none := by
    cases hf : reg.find? (fun e => e.2.1 == sid && e.2.2 == did) with
    | none => rfl
    | some e => rw [hf] at h; exact absurd h (by simp)
  rw [find_none_append _ _ _ hn]
  simp

theorem typeCode_small (i : Nat) (h : i + SERDE_CUSTOM ≤ 127) :
    typeCodeOfSlot i = (i : Int) + SERDE_CUSTOM := by
  simp only [SERDE_CUSTOM] at h ⊢
  have h2 : (i + 9) % 256 = i + 9 := Nat.mod_eq_of_lt (by omega)
  unfold typeCodeOfSlot toInt8 SERDE_CUSTOM
  rw [h2, if_pos (by omega)]
  omega

theorem slotIdx_append (ks : List (List Nat)) (key : List Nat)
    (more : List (List Nat)) (i : Nat) (h : slotIdx ks key = some i) :
    slotIdx (ks ++ more) key = some i := by
  induction ks generalizing i with
  | nil => exact absurd h (by simp [slotIdx])
  | cons k ks ih =>
    by_cases hk : k = key
    · simp only [slotIdx, if_pos hk] at h
      show slotIdx (k :: (ks ++ more)) key = some i
      simp only [slotIdx, if_pos hk]
      exact h
    · simp only [slotIdx, if_neg hk] at h
      obtain ⟨j, hj, rfl⟩ := Option.map_eq_some'.mp h
      show slotIdx (k :: (ks ++ more)) key = some (j + 1)
      simp only [slotIdx, if_neg hk]
      rw [ih j hj]
      rfl

theorem slotIdx_none_append (ks : List (List Nat)) (key : List Nat)
    (h : slotIdx ks key = none) :
    slotIdx (ks ++ [key]) key = some ks.length := by
  induction ks with
  | nil => simp [slotIdx]
  | cons k ks ih =>
    by_cases hk : k = key
    · simp only [slotIdx, if_pos hk] at h
      exact absurd h (by simp)
    · simp only [slotIdx, if_neg hk, Option.map_eq_none'] at h
      show slotIdx (k :: (ks ++ [key])) key = some (ks.length + 1)
      simp only [slotIdx, if_neg hk]
      rw [ih h]
      rfl

theorem lockedInsert_extends (st : CacheState) (key : List Nat) (allocOk : Bool) :
    ∃ t, (lockedInsert st key allocOk).st.slots = st.slots ++ t := by
  unfold lockedInsert
  dsimp only
  split
  · exact ⟨[], by simp⟩
  · exact ⟨[key], rfl⟩

theorem lockedInsert_publishes (st : CacheState) (key : List Nat) (allocOk : Bool)
    (hput : (lockedInsert st key allocOk).putOk = true) :
    ht_get (lockedInsert st key allocOk).st key =
      some (lockedInsert st key allocOk).wrote := by
  unfold lockedInsert at hput ⊢
  dsimp only at hput ⊢
  by_cases hcond : ((ht_get st key).isSome || !allocOk) = true
  · rw [if_pos hcond] at hput
    exact absurd hput (by simp)
  · rw [if_neg hcond] at hput ⊢
    dsimp only
    simp only [Bool.or_eq_true, not_or, Bool.not_eq_true'] at hcond
    obtain ⟨hc1, hc2⟩ := hcond
    have hnone : slotIdx st.slots key = none := by
      cases hg : slotIdx st.slots key with
      | none => rfl
      | some k =>
        exfalso
        have hx : (ht_get st key).isSome = true := by
          unfold ht_get
          rw [hg]
          rfl
        exact hc1 hx
    show ht_get ⟨st.slots ++ [key]⟩ key = some st.slots.length
    unfold ht_get
    exact slotIdx_none_append st.slots key hnone

theorem lockedInsert_fail_st (st : CacheState) (key : List Nat) (allocOk : Bool)
    (h : ¬(lockedInsert st key allocOk).putOk = true) :
    (lockedInsert st key allocOk).st = st := by
  unfold lockedInsert at h ⊢
  dsimp only at h ⊢
  by_cases hcond : ((ht_get st key).isSome || !allocOk) = true
  · rw [if_pos hcond]
  · rw [if_neg hcond] at h
    exact absurd rfl h

theorem applyOps_cons (st : CacheState) (op : List Nat × Bool)
    (ops : List (List Nat × Bool)) :
    applyOps st (op :: ops) = applyOps (lockedInsert st op.1 op.2).st ops := rfl

theorem applyOps_extends (st : CacheState) (ops : List (List Nat × Bool)) :
    ∃ t, (applyOps st ops).slots = st.slots ++ t := by
  induction ops generalizing st with
  | nil => exact ⟨[], by simp [applyOps]⟩
  | cons op ops ih =>
    obtain ⟨t1, h1⟩ := lockedInsert_extends st op.1 op.2
    obtain ⟨t2, h2⟩ := ih (lockedInsert st op.1 op.2).st
    refine ⟨t1 ++ t2, ?_⟩
    rw [applyOps_cons, h2, h1, List.append_assoc]

theorem ht_get_stable (st : CacheState) (ops : List (List Nat × Bool))
    (key : List Nat) (i : Nat) (h : ht_get st key = some i) :
    ht_get (applyOps st ops) key = some i := by
  obtain ⟨t, ht⟩ := applyOps_extends st ops
  unfold ht_get at h ⊢
  rw [ht]
  exact slotIdx_append _ _ _ _ h

theorem applyOps_append (st : CacheState) (ops1 ops2 : List (List Nat × Bool)) :
    applyOps st (ops1 ++ ops2) = applyOps (applyOps st ops1) ops2 := by
  unfold applyOps
  rw [List.foldl_append]

/-! ### Claim C9: concurrent convergence and append-only publication -/

/-- C9: modelling the spinlock-serialized critical sections of cache_serde
as an arbitrary interleaving of locked insert operations (any keys, any
threads, any allocator outcomes): the published slot array only ever grows
by appending — a slot once assigned is permanent and never mutated; a key
lookup that once succeeded keeps returning the same slot index forever; so
two resolutions of the same key at any two points of the same history
return the same index, i.e. the same type code — exactly one winner that
all threads subsequently observe; and a winning locked insert publishes
its key at the index it wrote. -/
theorem c9_convergence :
    (∀ st ops, st.slots.length ≤ (applyOps st ops).slots.length ∧
      (applyOps st ops).slots.take st.slots.length = st.slots) ∧
    (∀ st ops key i, ht_get st key = some i → ht_get (applyOps st ops) key = some i) ∧
    (∀ st ops1 ops2 key i j,
      ht_get (applyOps st ops1) key = some i →
      ht_get (applyOps st (ops1 ++ ops2)) key = some j →
      i = j ∧ typeCodeOfSlot i = typeCodeOfSlot j) ∧
    (∀ st key allocOk, (lockedInsert st key allocOk).putOk = true →
      ht_get (lockedInsert st key allocOk).st key =
        some (lockedInsert st key allocOk).wrote) := by
  refine ⟨?_, ht_get_stable, ?_, ?_⟩
  · intro st ops
    obtain ⟨t, ht⟩ := applyOps_extends st ops
    rw [ht]
    exact ⟨by simp, List.take_left st.slots t⟩
  · intro st ops1 ops2 key i j h1 h2
    rw [applyOps_append] at h2
    have h3 := ht_get_stable (applyOps st ops1) ops2 key i h1
    rw [h3] at h2
    injection h2 with h4
    exact ⟨h4, by rw [h4]⟩
  · exact lockedInsert_publishes

/-- Witness for C9 at a small concrete history: one thread publishes [5],
another thread later inserts [6]; both lookups of [5] agree on slot 0. -/
theorem c9_convergence_witness :
    (([] : List (List Nat)).length ≤
        (applyOps ⟨[]⟩ [([5], true), ([6], true)]).slots.length ∧
      (applyOps ⟨[]⟩ [([5], true), ([6], true)]).slots.take
        ([] : List (List Nat)).length = []) ∧
    ht_get (applyOps ⟨[[5]]⟩ [([6], true)]) [5] = some 0 ∧
    (0 = 0 ∧ typeCodeOfSlot 0 = typeCodeOfSlot 0) ∧
    ht_get (lockedInsert ⟨[]⟩ [7] true).st [7] = some (lockedInsert ⟨[]⟩ [7] true).wrote := by
  obtain ⟨h1, h2, h3, h4⟩ := c9_convergence
  exact ⟨h1 ⟨[]⟩ [([5], true), ([6], true)],
    h2 ⟨[[5]]⟩ [([6], true)] [5] 0 (by decide),
    h3 ⟨[]⟩ [([5], true)] [([6], true)] [5] 0 0 (by decide) (by decide),
    h4 ⟨[]⟩ [7] true (by decide)⟩

/-! ### Claim C4: idempotent per-interpreter resolution -/

/-- C4: within one interpreter, once cache_serde has resolved a
(serialize, deserialize) pair to a type code, every later call on the same
pair hits the per-interpreter registry cache table by function identity
and returns the same code without re-encoding the pair: the output states
are unchanged and nothing is written to the slot array.  The code returned
by the first call equals the pair's assigned slot index plus SERDE_CUSTOM
at type serde_type_code (int8_t), which equals the plain sum whenever that
sum fits the positive int8 range. -/
theorem c4_idempotent (reg : List (Int × Nat × Nat)) (st : CacheState) (p : SerdePair)
    (allocOk allocOk2 : Bool) (key : List Nat) (c : Int)
    (reg2 : List (Int × Nat × Nat)) (st2 : CacheState) (w : Option Nat)
    (hmiss : regFind reg p.sid p.did = none)
    (hkey : pairKey p = .ok key)
    (hcall : cache_serde reg st p allocOk = ⟨reg2, st2, .ok c, w⟩) :
    regFind reg2 p.sid p.did = some c ∧
    cache_serde reg2 st2 p allocOk2 = ⟨reg2, st2, .ok c, none⟩ ∧
    (∀ extra st3 allocOk3, cache_serde (reg2 ++ extra) st3 p allocOk3 =
      ⟨reg2 ++ extra, st3, .ok c, none⟩) ∧
    (ht_get st2 key).isSome = true ∧
    c = typeCodeOfSlot ((ht_get st2 key).getD 0) ∧
    ((ht_get st2 key).getD 0 + SERDE_CUSTOM ≤ 127 →
      c = (((ht_get st2 key).getD 0 : Nat) : Int) + SERDE_CUSTOM) := by
  unfold cache_serde at hcall
  simp only [hmiss, hkey] at hcall
  have main : regFind reg2 p.sid p.did = some c ∧
      ∃ i, c = typeCodeOfSlot i ∧ ht_get st2 key = some i := by
    by_cases hlen : UINT16_MAX < key.length
    · rw [if_pos hlen] at hcall
      exact absurd hcall (by simp)
    rw [if_neg hlen] at hcall
    cases hget : ht_get st key with
    | some i =>
      simp only [hget] at hcall
      simp only [CacheSerdeOut.mk.injEq] at hcall
      obtain ⟨hr, hst, hres, hw⟩ := hcall
      injection hres with hc
      subst hr hst hc
      exact ⟨regFind_append_self reg p.sid p.did _ hmiss, i, rfl, hget⟩
    | none =>
      simp only [hget] at hcall
      by_cases hput : (lockedInsert st key allocOk).putOk = true
      · rw [if_pos hput] at hcall
        simp only [CacheSerdeOut.mk.injEq] at hcall
        obtain ⟨hr, hst, hres, hw⟩ := hcall
        injection hres with hc
        subst hr hst hc
        exact ⟨regFind_append_self reg p.sid p.did _ hmiss,
          (lockedInsert st key allocOk).wrote, rfl,
          lockedInsert_publishes st key allocOk hput⟩
      · rw [if_neg hput] at hcall
        rw [lockedInsert_fail_st st key allocOk hput, hget] at hcall
        exact absurd hcall (by simp)
  obtain ⟨hreg, i, hc, hget⟩ := main
  refine ⟨hreg, ?_, ?_, by rw [hget]; rfl, ?_, ?_⟩
  · unfold cache_serde
    rw [hreg]
  · intro extra st3 allocOk3
    unfold cache_serde
    rw [regFind_mono reg2 extra p.sid p.did c hreg]
  · rw [hget]
    exact hc
  · rw [hget]
    intro hsmall
    rw [hc]
    exact typeCode_small i hsmall

/-- Witness for C4: a fresh pair resolves to slot 0 and code 9; the second
call returns the same code from the registry without touching the global
state. -/
theorem c4_idempotent_witness :
    regFind [(typeCodeOfSlot 0, 2, 3)] 2 3 = some (typeCodeOfSlot 0) ∧
    cache_serde [(typeCodeOfSlot 0, 2, 3)]
        ⟨[encValue (.cclosure [] 4) ++ encValue (.cclosure [] 5)]⟩
        ⟨2, 3, .cclosure [] 4, .cclosure [] 5⟩ false =
      ⟨[(typeCodeOfSlot 0, 2, 3)],
        ⟨[encValue (.cclosure [] 4) ++ encValue (.cclosure [] 5)]⟩,
        .ok (typeCodeOfSlot 0), none⟩ ∧
    cache_serde ([(typeCodeOfSlot 0, 2, 3)] ++ [(19, 7, 7)]) ⟨[]⟩
        ⟨2, 3, .cclosure [] 4, .cclosure [] 5⟩ true =
      ⟨[(typeCodeOfSlot 0, 2, 3)] ++ [(19, 7, 7)], ⟨[]⟩, .ok (typeCodeOfSlot 0), none⟩ ∧
    (ht_get ⟨[encValue (.cclosure [] 4) ++ encValue (.cclosure [] 5)]⟩
        (encValue (.cclosure [] 4) ++ encValue (.cclosure [] 5))).isSome = true ∧
    typeCodeOfSlot 0 = typeCodeOfSlot
      ((ht_get ⟨[encValue (.cclosure [] 4) ++ encValue (.cclosure [] 5)]⟩
        (encValue (.cclosure [] 4) ++ encValue (.cclosure [] 5))).getD 0) := by
  obtain ⟨h1, h2, h3, h4, h5, h6⟩ :=
    c4_idempotent [] ⟨[]⟩ ⟨2, 3, .cclosure [] 4, .cclosure [] 5⟩ true false
      (encValue (.cclosure [] 4) ++ encValue (.cclosure [] 5)) (typeCodeOfSlot 0)
      [(typeCodeOfSlot 0, 2, 3)]
      ⟨[encValue (.cclosure [] 4) ++ encValue (.cclosure [] 5)]⟩ (some 0)
      rfl rfl (by decide)
  exact ⟨h1, h2, h3 [(19, 7, 7)] ⟨[]⟩ true, h4, h5⟩

/-! ### Claim C8: bounded key length -/

/-- C8: when the canonical byte encoding of a (serialize, deserialize)
pair exceeds UINT16_MAX (the hash table's 16-bit key-length limit),
cache_serde frees the temporary encoding and returns EOVERFLOW to the
caller: the registry, the slot array and the hash table are all left
untouched and nothing is written. -/
theorem c8_key_overflow (reg : List (Int × Nat × Nat)) (st : CacheState)
    (p : SerdePair) (allocOk : Bool) (key : List Nat)
    (hmiss : regFind reg p.sid p.did = none)
    (hkey : pairKey p = .ok key)
    (hlen : UINT16_MAX < key.length) :
    cache_serde reg st p allocOk = ⟨reg, st, .err EOVERFLOW, none⟩ := by
  unfold cache_serde
  simp only [hmiss, hkey]
  rw [if_pos hlen]

/-- Witness for C8: a pair whose deserialize closure carries 65600 bytes of
bytecode encodes to a key longer than 65535 bytes and is rejected. -/
theorem c8_key_overflow_witness :
    cache_serde [] ⟨[]⟩ ⟨0, 1, .cclosure [] 0, .lclosure [] (List.replicate 65600 0)⟩ true =
      ⟨[], ⟨[]⟩, .err EOVERFLOW, none⟩ :=
  c8_key_overflow [] ⟨[]⟩ ⟨0, 1, .cclosure [] 0, .lclosure [] (List.replicate 65600 0)⟩
    true (encValue (.cclosure [] 0) ++ encValue (.lclosure [] (List.replicate 65600 0)))
    (by decide)
    (pairKey_ok ⟨0, 1, .cclosure [] 0, .lclosure [] (List.replicate 65600 0)⟩ rfl rfl)
    (by
      have h1 : (encValue (.cclosure [] 0)).length = 13 := by
        simp [encValue, encUps, natBytes_length]
      have h2 : (encValue (.lclosure [] (List.replicate 65600 0))).length = 65613 := by
        rw [show encValue (.lclosure [] (List.replicate 65600 0)) =
          SERDE_LCLOSURE :: (natBytes 4 0 ++ encUps [] ++
            natBytes 8 (List.replicate 65600 0).length ++ List.replicate 65600 0) from rfl]
        rw [List.length_cons, List.length_append, List.length_append,
          List.length_append, natBytes_length, natBytes_length,
          List.length_replicate]
        rfl
      rw [List.length_append, h1, h2]
      decide)

/-! ### Claim C3: slot array capacity (code bug) -/

set_option maxRecDepth 40000 in
/-- C3 is violated by the code: cache_serde has no check of serde_cache_len
against SERDE_CACHE_CAPACITY.  With all 256 slots already assigned,
resolving a fresh (serialize, deserialize) pair does not surface an error:
the critical section stores through serde_cache[256] — one past the end of
the fixed 256-entry array — publishes a 257th entry and returns a
(wrapped) type code. -/
theorem c3_slot_overflow :
    (cache_serde [] fullState c3pair true).res =
      .ok (typeCodeOfSlot SERDE_CACHE_CAPACITY) ∧
    (cache_serde [] fullState c3pair true).wrote = some SERDE_CACHE_CAPACITY ∧
    ¬(SERDE_CACHE_CAPACITY < SERDE_CACHE_CAPACITY) ∧
    (cache_serde [] fullState c3pair true).st.slots.length = SERDE_CACHE_CAPACITY + 1 := by
  refine ⟨by decide, by decide, by decide, by decide⟩

/-! ### Claim C10: int8 wraparound of custom type codes -/

set_option maxRecDepth 40000 in
/-- C10 counterexample: the claim says every slot index at or above 119
wraps to a negative int8 code and that only indices 0..118 produce
positive codes.  At index 248 the computed code is 1 — positive and not
negative — and at index 247 it is 0; both are inside the 256-entry slot
array, so the claim is false as stated. -/
theorem c10_counterexample :
    typeCodeOfSlot 248 = 1 ∧ (0 : Int) < typeCodeOfSlot 248 ∧ ¬(248 ≤ 118) ∧
    ¬(typeCodeOfSlot 248 < 0) ∧ typeCodeOfSlot 247 = 0 ∧
    ¬(typeCodeOfSlot 247 < 0) := by
  refine ⟨by decide, by decide, by decide, by decide, by decide, by decide⟩

set_option maxRecDepth 40000 in
/-- C10 amended: the wire code is int8 (serde_type_code), so with custom
codes starting at SERDE_CUSTOM = 9 only slot indices 0..118 produce valid
custom codes (9..127, exactly 119 of them, though the slot array reserves
256 entries); for indices 119..246 the code wraps to a negative int8 whose
tag byte is at least 128, which the decoder rejects as an invalid type;
and for indices 247..255 the code wraps further into 0..8, colliding with
the built-in tags, which the decoder then misinterprets instead of
rejecting. -/
theorem c10_amended :
    (∀ i < 256, i ≤ 118 → typeCodeOfSlot i = (i : Int) + 9 ∧ 9 ≤ typeCodeOfSlot i) ∧
    (∀ i < 256, 119 ≤ i → i ≤ 246 → typeCodeOfSlot i < 0) ∧
    (∀ i < 256, 247 ≤ i → 0 ≤ typeCodeOfSlot i ∧ typeCodeOfSlot i ≤ 8) ∧
    ((Finset.range 256).filter (fun i => 9 ≤ typeCodeOfSlot i)).card = 119 ∧
    (∀ i, 119 ≤ i → i ≤ 246 → 128 ≤ (i + SERDE_CUSTOM) % 256) ∧
    (∀ (env0 : Bool) fuel ctx b l, 128 ≤ b % 256 →
      loadshared env0 (fuel + 1) ctx (b :: l) = .fail) := by
  refine ⟨by decide, by decide, by decide, by decide, ?_, ?_⟩
  · intro i h1 h2
    simp only [SERDE_CUSTOM]
    rw [Nat.mod_eq_of_lt (by omega)]
    omega
  · exact load_negative_tag

set_option maxRecDepth 40000 in
/-- Witness instantiating the amended C10 theorem: slot 10 yields code 19,
slot 120 a negative code, slot 250 a built-in-range code, slot 119 a tag
byte the decoder rejects. -/
theorem c10_amended_witness :
    (typeCodeOfSlot 10 = (10 : Int) + 9 ∧ 9 ≤ typeCodeOfSlot 10) ∧
    typeCodeOfSlot 120 < 0 ∧
    (0 ≤ typeCodeOfSlot 250 ∧ typeCodeOfSlot 250 ≤ 8) ∧
    ((Finset.range 256).filter (fun i => 9 ≤ typeCodeOfSlot i)).card = 119 ∧
    128 ≤ (119 + SERDE_CUSTOM) % 256 ∧
    loadshared true 1 ctxAll [128] = .fail := by
  obtain ⟨h1, h2, h3, h4, h5, h6⟩ := c10_amended
  exact ⟨h1 10 (by decide) (by decide), h2 120 (by decide) (by decide) (by decide),
    h3 250 (by decide) (by decide), h4, h5 119 (by decide) (by decide),
    h6 true 0 ctxAll 128 [] (by decide)⟩

end FluaCk
